import Mathlib

/-!
# Verification of the karabo-bridge simulator against its specification

This development gives a shallow embedding of `karabo_bridge/simulation.py`:
the train data model, the version-dependent encoder `containize`, the
simulated train source (`Detector.gen_data`, `generate`), and the setup /
serving-loop behaviour of `start_gen` and `ServeInThread`.  The client-side
decoder is not part of the sources at hand, so it is modelled from the
specification's decoding rules and the repository's tests.

Python dicts are embedded as association lists with first-occurrence lookup
and replace-or-append update; Python `==` on dicts is embedded as the
key-wise lookup equality `dictEq` / `smapEq` (insertion order is ignored,
as in Python).  Machine floats appearing as wall-clock timestamps are
carried as their decimal string representation (`str(timestamp)`), which is
exactly what the code manipulates; array elements are carried as exact
rationals.
-/

/-! ## Association-list dictionaries -/

/-- First-occurrence lookup, the embedding of `d[k]` / `d.get(k)`. -/
def lookupA {α : Type} : List (String × α) → String → Option α
  | [], _ => none
  | (k, v) :: rest, key => if k = key then some v else lookupA rest key

/-- Replace-in-place or append, the embedding of `d[k] = v`. -/
def updateA {α : Type} : List (String × α) → String → α → List (String × α)
  | [], key, v => [(key, v)]
  | (k, w) :: rest, key, v =>
    if k = key then (key, v) :: rest else (k, w) :: updateA rest key v

/-- The key sequence of a dict. -/
def keysOf {α : Type} (l : List (String × α)) : List String := l.map Prod.fst

/-- A field value: the variants the simulator actually produces, plus nested
dicts (used when metadata is embedded into the data payload).  Arrays carry a
dtype name, a shape and their elements flattened in row-major order as exact
rationals. -/
inductive Value where
  | int (n : Int)
  | str (s : String)
  | bool (b : Bool)
  | bytes (b : List Nat)
  | float (s : String)
  | list (vs : List Value)
  | arr (dtype : String) (shape : List Nat) (elems : List Rat)
  | dict (entries : List (String × Value))

/-- A per-source field dictionary. -/
abbrev Dict := List (String × Value)

/-- A map from source name to its field dictionary. -/
abbrev SrcMap := List (String × Dict)

/-- `isinstance(value, np.ndarray)`. -/
def isArrV : Value → Bool
  | .arr _ _ _ => true
  | _ => false

/-- The whole data map as one serializable structured value. -/
def srcMapValue (data : SrcMap) : Value :=
  .dict (data.map (fun p => (p.1, Value.dict p.2)))

/-! ## Python-dict equality -/

/-- Python `==` on two field dicts: key-wise equal lookups. -/
def dictEq (a b : Dict) : Prop := ∀ k, lookupA a k = lookupA b k

/-- Equality of optional dicts. -/
def odictEq : Option Dict → Option Dict → Prop
  | some a, some b => dictEq a b
  | none, none => True
  | _, _ => False

/-- Python `==` on two source maps. -/
def smapEq (a b : SrcMap) : Prop := ∀ s, odictEq (lookupA a s) (lookupA b s)

/-- Python `==` on two `(Data, Metadata)` trains. -/
def trainEq (t u : SrcMap × SrcMap) : Prop := smapEq t.1 u.1 ∧ smapEq t.2 u.2

/-! ## The encoder: `containize` -/

/-- One message part: either a serialized structured value (`ser_func(...)`)
or the raw bytes of a contiguous array (`memoryview(array)`). -/
inductive MsgPart where
  | ser (v : Value)
  | raw (elems : List Rat)

/-- The metadata merge of versions 1.0/2.0:
`data[key].update({'metadata': value})` for each metadata entry. -/
def mergeMeta10 : SrcMap → SrcMap → Except String SrcMap
  | data, [] => .ok data
  | data, (key, value) :: rest =>
    match lookupA data key with
    | none => .error "KeyError"
    | some props =>
      mergeMeta10 (updateA data key (updateA props "metadata" (.dict value))) rest

/-- `{'metadata.' + mkey: mval for ...}`. -/
def prefKeys (value : Dict) : Dict :=
  value.map (fun q => ("metadata." ++ q.1, q.2))

/-- `d.update(m)`, entry by entry in order. -/
def updAll : Dict → Dict → Dict
  | d, [] => d
  | d, (k, v) :: rest => updAll (updateA d k v) rest

/-- The metadata merge of version 2.1: each metadata field is merged into the
data dict under a `metadata.`-prefixed key. -/
def mergeMeta21 : SrcMap → SrcMap → Except String SrcMap
  | data, [] => .ok data
  | data, (key, value) :: rest =>
    match lookupA data key with
    | none => .error "KeyError"
    | some props =>
      mergeMeta21 (updateA data key (updAll props (prefKeys value))) rest

/-- The `shape` header entry, a tuple of dimension sizes. -/
def shapeVal (shape : List Nat) : Value :=
  .list (shape.map (fun n => .int (Int.ofNat n)))

/-- The header-plus-raw-bytes part pairs for the array-valued fields of one
source, in field order (non-array entries are skipped, matching the
`isinstance(value, np.ndarray)` split). -/
def arrParts (src : String) : Dict → List MsgPart
  | [] => []
  | (path, .arr dt sh el) :: rest =>
    .ser (.dict [("source", .str src), ("content", .str "array"),
                 ("path", .str path), ("dtype", .str dt), ("shape", shapeVal sh)])
      :: .raw el :: arrParts src rest
  | _ :: rest => arrParts src rest

/-- The contiguous run of parts for one source: header, dict payload, then
one header and one raw part per array field.  For version 2.2 the dict-part
header also carries the source's metadata. -/
def srcSegment (ser vers src : String) (props : Dict) (md : Dict) : List MsgPart :=
  .ser (.dict (if vers = "2.2"
      then [("source", .str src), ("content", .str ser), ("metadata", .dict md)]
      else [("source", .str src), ("content", .str ser)]))
    :: .ser (.dict (props.filter (fun q => !(isArrV q.2))))
    :: arrParts src props

/-- The message assembly loop over `newdata.items()`. -/
def buildMsg (ser vers : String) (meta : SrcMap) : SrcMap → Except String (List MsgPart)
  | [] => .ok []
  | (src, props) :: rest =>
    match lookupA meta src with
    | none => .error "KeyError"
    | some md =>
      match buildMsg ser vers meta rest with
      | .error e => .error e
      | .ok ps => .ok (srcSegment ser vers src props md ++ ps)

/-- The in-place array extraction `data[src].pop(arr_key)` applied to every
source: what the caller's `data` dict looks like after `containize` ran its
splitting loop. -/
def stripArrays (data : SrcMap) : SrcMap :=
  data.map (fun p => (p.1, p.2.filter (fun q => !(isArrV q.2))))

/-- `containize(train_data, ser, ser_func, vers)`.  Returns the message parts
together with the final states of the (mutated) `data` dict and the `meta`
dict. -/
def containize (train : SrcMap × SrcMap) (ser vers : String) :
    Except String (List MsgPart × SrcMap × SrcMap) :=
  let data := train.1
  let meta := train.2
  if vers = "1.0" ∨ vers = "2.0" ∨ vers = "2.1" ∨ vers = "2.2" then
    match (if vers = "1.0" ∨ vers = "2.0" then mergeMeta10 data meta
           else if vers = "2.1" then mergeMeta21 data meta else .ok data) with
    | .error e => .error e
    | .ok data1 =>
      if vers = "1.0" then
        .ok ([.ser (srcMapValue data1)], data1, meta)
      else
        match buildMsg ser vers meta data1 with
        | .error e => .error e
        | .ok msg => .ok (msg, stripArrays data1, meta)
  else .error ("Invalid version " ++ vers)

/-! ## The decoder, modelled from the spec -/

/-- Does a key carry the version-2.1 `metadata.` marker? -/
def isMetaKey (s : String) : Bool := s.data.take 9 == "metadata.".data

/-- Remove the version-2.1 `metadata.` marker from a key. -/
def stripMetaKey (s : String) : String := String.mk (s.data.drop 9)

/-- Reinterpret a `shape` header entry. -/
def natOfVal : Value → Option Nat
  | .int n => if 0 ≤ n then some n.toNat else none
  | _ => none

def natsOfVals : List Value → Option (List Nat)
  | [] => some []
  | v :: rest =>
    match natOfVal v, natsOfVals rest with
    | some n, some ns => some (n :: ns)
    | _, _ => none

def shapeOfVal : Value → Option (List Nat)
  | .list vs => natsOfVals vs
  | _ => none

/-- Attach a decoded array back into the record of its source. -/
def attachArr : List (String × Dict × Dict) → String → String → Value →
    Option (List (String × Dict × Dict))
  | [], _, _, _ => none
  | (s, d, m) :: rest, src, path, v =>
    if s = src then some ((s, d ++ [(path, v)], m) :: rest)
    else
      match attachArr rest src path v with
      | none => none
      | some rest' => some ((s, d, m) :: rest')

/-- Modelled from the spec: the sequential part consumer of the client-side
decoder (the client sources are not available here).  A header part with
`content != "array"` starts a new dict payload for its `source` (taking the
2.2 `metadata` header field along when present); a header with
`content == "array"` must be followed by exactly one raw-bytes part, which is
reinterpreted using `dtype`/`shape` and attached back into that source's
record under `path`.  Anything else is a `MalformedMessage`. -/
def decodeLoop : List MsgPart → List (String × Dict × Dict) →
    Except String (List (String × Dict × Dict))
  | [], recs => .ok recs
  | .ser (.dict h) :: rest, recs =>
    (match lookupA h "source", lookupA h "content" with
     | some (.str src), some (.str c) =>
       if c = "array" then
         match lookupA h "path", lookupA h "dtype", lookupA h "shape", rest with
         | some (.str path), some (.str dt), some shv, .raw el :: rest2 =>
           (match shapeOfVal shv with
            | none => .error "MalformedMessage"
            | some sh =>
              match attachArr recs src path (.arr dt sh el) with
              | none => .error "MalformedMessage"
              | some recs' => decodeLoop rest2 recs')
         | _, _, _, _ => .error "MalformedMessage"
       else
         match rest with
         | .ser (.dict payload) :: rest2 =>
           (match lookupA h "metadata" with
            | some (.dict md) => decodeLoop rest2 (recs ++ [(src, payload, md)])
            | none => decodeLoop rest2 (recs ++ [(src, payload, [])])
            | some _ => .error "MalformedMessage")
         | _ => .error "MalformedMessage"
     | _, _ => .error "MalformedMessage")
  | _, _ => .error "MalformedMessage"

/-- Modelled from the spec and `tests/test_client.py`: version-1.0 decoding.
The whole message is a single structured part holding one payload per source;
each source's metadata sits embedded under its `metadata` key, which is read
out into the Metadata map but (per the repository's protocol-1 test) left in
place inside Data. -/
def metaOfProps (props : Dict) : Dict :=
  match lookupA props "metadata" with
  | some (.dict m) => m
  | _ => []

def dictOfVal : Value → Option Dict
  | .dict d => some d
  | _ => none

/-- Reinterpret the whole-message payload as one dict per source. -/
def dictsOf : List (String × Value) → Option SrcMap
  | [] => some []
  | (k, v) :: rest =>
    match dictOfVal v, dictsOf rest with
    | some d, some ds => some ((k, d) :: ds)
    | _, _ => none

def decode10 (parts : List MsgPart) : Except String (SrcMap × SrcMap) :=
  match parts with
  | [.ser (.dict m)] =>
    match dictsOf m with
    | none => .error "MalformedMessage"
    | some data => .ok (data, data.map (fun p => (p.1, metaOfProps p.2)))
  | _ => .error "MalformedMessage"

/-- The shape version-1.0 decoding leaves Data in: the original Data with
each source's Metadata additionally embedded under its `metadata` key. -/
def dataWithMeta (data meta : SrcMap) : SrcMap :=
  data.map (fun p => (p.1, updateA p.2 "metadata" (.dict ((lookupA meta p.1).getD []))))

/-- Modelled from the spec: the versioned decoder.  For 2.1 the
`metadata.`-prefixed keys are stripped out of each payload and moved into
Metadata; for 2.2 the header-borne metadata becomes the Metadata map. -/
def decodeTrain (vers : String) (parts : List MsgPart) : Except String (SrcMap × SrcMap) :=
  if vers = "1.0" ∨ vers = "2.0" then decode10 parts
  else
    match decodeLoop parts [] with
    | .error e => .error e
    | .ok recs =>
      if vers = "2.1" then
        .ok (recs.map (fun r => (r.1, r.2.1.filter (fun q => !(isMetaKey q.1)))),
             recs.map (fun r =>
               (r.1, (r.2.1.filter (fun q => isMetaKey q.1)).map
                 (fun q => (stripMetaKey q.1, q.2)))))
      else
        .ok (recs.map (fun r => (r.1, r.2.1)), recs.map (fun r => (r.1, r.2.2)))

/-! ## The simulated detector -/

/-- A detector family record: the data-driven content of the `Detector`
subclasses plus the constructor-validated configuration. -/
structure Detector where
  source : String
  corrected : Bool
  genName : String
  pulses : Nat
  modules : Nat
  mod_x : Nat
  mod_y : Nat
  const_fields : Dict

/-- AGIPD / AGIPDModule constant fields. -/
def agipdConstFields : Dict :=
  [("checksum", .bytes (List.replicate 16 0)),
   ("data", .bytes (List.replicate 416 1)),
   ("dataId", .int 0),
   ("linkId", .int 18446744069414584335),
   ("magicNumberBegin", .bytes [0xce, 0xfa, 0xef, 0xbe, 70, 68, 84, 88]),
   ("magicNumberEnd", .bytes [0xcd, 0xab, 0xad, 0xde, 70, 68, 84, 88]),
   ("majorTrainFormatVersion", .int 2),
   ("minorTrainFormatVersion", .int 1),
   ("reserved", .bytes (List.replicate 16 0)),
   ("status", .int 0)]

/-- LPD constant fields. -/
def lpdConstFields : Dict :=
  [("checksum", .bytes (List.replicate 16 0x11)),
   ("data", .bytes (List.replicate 416 0xff)),
   ("dataId", .int 0),
   ("linkId", .int 18446744069414584320),
   ("magicNumberBegin", .bytes [0xce, 0xfa, 0xef, 0xbe, 70, 68, 84, 88]),
   ("magicNumberEnd", .bytes [0xcd, 0xab, 0xad, 0xde, 70, 68, 84, 88]),
   ("majorTrainFormatVersion", .int 2),
   ("minorTrainFormatVersion", .int 1),
   ("reserved", .bytes (List.replicate 16 0)),
   ("status", .int 0)]

/-- `Detector.__init__`: the empty-source fallback and the generator-name
validation (`NotImplementedError` for anything but `random`/`zeros`). -/
def detInit (source : String) (corr : Bool) (gen : String)
    (pulses modules mod_x mod_y : Nat) (cf : Dict) : Except String Detector :=
  let src := if source = "" then "INST_DET_GENERIC/DET/detector" else source
  if gen = "random" ∨ gen = "zeros" then
    .ok ⟨src, corr, gen, pulses, modules, mod_x, mod_y, cf⟩
  else .error ("gen func " ++ gen ++ " not implemented")

/-- `Detector.getDetector`: family dispatch with per-family default source
names; unknown families raise `NotImplementedError`. -/
def getDetector (detector source : String) (corr : Bool) (gen : String) :
    Except String Detector :=
  if detector = "AGIPD" then
    detInit (if source = "" then "SPB_DET_AGIPD1M-1/DET/detector" else source)
      corr gen 64 16 512 128 agipdConstFields
  else if detector = "AGIPDModule" then
    detInit (if source = "" then "SPB_DET_AGIPD1M-1/DET/0CH0:xtdf" else source)
      corr gen 64 1 512 128 agipdConstFields
  else if detector = "LPD" then
    detInit (if source = "" then "FXE_DET_LPD1M-1/DET/detector" else source)
      corr gen 300 16 256 256 lpdConstFields
  else .error ("detector " ++ detector ++ " not available")

/-- `(self.modules, self.mod_y, self.mod_x, self.pulses)`. -/
def Detector.data_shape (d : Detector) : List Nat :=
  [d.modules, d.mod_y, d.mod_x, d.pulses]

/-- `np.float32 if self.corrected else np.uint16`, as a dtype name. -/
def Detector.data_type (d : Detector) : String :=
  if d.corrected then "float32" else "uint16"

/-- Total element count of the image array. -/
def Detector.shapeCount (d : Detector) : Nat :=
  d.modules * d.mod_y * d.mod_x * d.pulses

/-- Bytes per element of a dtype. -/
def itemsize (dtype : String) : Nat :=
  if dtype = "float32" then 4 else 2

/-- `img.nbytes`. -/
def Detector.nbytes (d : Detector) : Nat :=
  d.shapeCount * itemsize d.data_type

/-- Truncation toward zero, the integer conversion applied by
`astype(np.uint16)`. -/
def truncInt (q : Rat) : Int := q.num.tdiv (q.den : Int)

/-- Fuel-driven binary logarithm: `lg2F fuel n` halves `n` until it drops
below 2, counting the steps (structural in the fuel, so it evaluates in the
kernel). -/
def lg2F : Nat → Nat → Nat
  | 0, _ => 0
  | fuel+1, n => if n ≥ 2 then lg2F fuel (n / 2) + 1 else 0

/-- Binary logarithm of a positive natural: the unique `k` with
`2^k ≤ n < 2^(k+1)`. -/
def lg2 (n : Nat) : Nat := lg2F n n

/-- Round a rational to the nearest integer, ties to even — the IEEE-754
default rounding used by numpy dtype conversions. -/
def rneInt (x : Rat) : Int :=
  if x - ⌊x⌋ < 1/2 then ⌊x⌋
  else if 1/2 < x - ⌊x⌋ then ⌊x⌋ + 1
  else if ⌊x⌋ % 2 = 0 then ⌊x⌋ else ⌊x⌋ + 1

/-- Powers of two with integer exponent, as exact rationals. -/
def pow2Z : Int → Rat
  | .ofNat n => ((2^n : Nat) : Rat)
  | .negSucc n => 1 / ((2^(n+1) : Nat) : Rat)

/-- Binary exponent of a positive rational: the unique `e` with
`2^e ≤ q < 2^(e+1)`. -/
def ratExp2 (q : Rat) : Int :=
  if pow2Z ((lg2 q.num.toNat : Int) - (lg2 q.den : Int)) ≤ q
  then (lg2 q.num.toNat : Int) - (lg2 q.den : Int)
  else (lg2 q.num.toNat : Int) - (lg2 q.den : Int) - 1

/-- Round-to-nearest-even onto the binary floating-point grid with `bits`
fractional significand bits (23 for float32), for values of normal
magnitude — the rounding `astype(np.float32)` applies to each element (the
simulator's element values are 0 or near 1500, far from the subnormal and
overflow ranges, which this model does not cover). -/
def roundFl (bits : Nat) (q : Rat) : Rat :=
  if q = 0 then 0
  else (if q < 0 then (-1 : Rat) else 1)
    * ((rneInt (|q| / pow2Z (ratExp2 |q| - (bits : Int))) : Rat)
      * pow2Z (ratExp2 |q| - (bits : Int)))

/-- Conversion of one element to the detector dtype: `uint16` truncates
toward zero and wraps modulo 2^16; `float32` rounds to the nearest float32,
ties to even. -/
def castTo (dtype : String) (q : Rat) : Rat :=
  if dtype = "uint16" then ((truncInt q % 65536 : Int) : Rat)
  else if dtype = "float32" then roundFl 23 q
  else q

/-- `Detector.random`: `np.random.uniform(low=1500, high=1600, ...)` followed
by `astype(self.data_type)`.  `draws i` is the i-th float64 sample returned
by the uniform draw; numpy evaluates `low + (high - low) * random_sample()`
in float64 and documents that because of that rounding the `high` endpoint
itself can be returned, so the samples range over the closed interval
`[1500, 1600]`.  Each sample is then converted to the detector dtype. -/
def Detector.randomArr (d : Detector) (draws : Nat → Rat) : Value :=
  .arr d.data_type d.data_shape
    ((List.range d.shapeCount).map (fun i => castTo d.data_type (draws i)))

/-- `Detector.zeros`: `np.zeros(self.data_shape, dtype=self.data_type)`. -/
def Detector.zerosArr (d : Detector) : Value :=
  .arr d.data_type d.data_shape (List.replicate d.shapeCount 0)

/-- The generator-function table selected by the validated generator name. -/
def Detector.genArr (d : Detector) (draws : Nat → Rat) : Value :=
  if d.genName = "zeros" then d.zerosArr else d.randomArr draws

/-- `Detector.corr_passport`: three calibration identifiers derived from the
domain part of the source (everything before the first `/`). -/
def Detector.corr_passport (d : Detector) : List String :=
  let domain := (d.source.splitOn "/").headD ""
  [domain ++ "/CAL/THRESHOLDING_Q1M1",
   domain ++ "/CAL/OFFSET_CORR_Q1M1",
   domain ++ "/CAL/RELGAIN_CORR_Q1M1"]

/-- `str.ljust(width, c)`: pad on the right up to `width`, return the string
unchanged when already at least that long (never truncates). -/
def ljust (s : String) (w : Nat) (c : Char) : String :=
  if w ≤ s.length then s else s ++ String.mk (List.replicate (w - s.length) c)

/-- `Detector.gen_metadata`.  The wall-clock timestamp enters as the two
halves of `str(timestamp).split('.')`. -/
def gen_metadata_props (source : String) (tsec tfrac : String) (trainId : Int) : Dict :=
  [("source", .str source),
   ("timestamp", .float (tsec ++ "." ++ tfrac)),
   ("timestamp.tid", .int trainId),
   ("timestamp.sec", .str tsec),
   ("timestamp.frac", .str (ljust tfrac 18 '0'))]

/-- `Detector.gen_metadata` wraps the field dict under the source key. -/
def gen_metadata (source : String) (tsec tfrac : String) (trainId : Int) : SrcMap :=
  [(source, gen_metadata_props source tsec tfrac trainId)]

/-- The 16 synthetic per-module source names built from
`'/'.join((source.rpartition('/')[0], '{}CH0:xtdf'))`. -/
def combinedSources (source : String) : List String :=
  let before := String.intercalate "/" ((source.splitOn "/").dropLast)
  (List.range 16).map (fun i => before ++ "/" ++ Nat.repr i ++ "CH0:xtdf")

/-- The per-source field dict assembled by `Detector.gen_data`.  Field
insertions follow the source order exactly. -/
def gen_data_props (det : Detector) (trainId : Int) (tsec tfrac : String)
    (draws : Nat → Rat) : Dict :=
  let timestamp := tsec ++ "." ++ tfrac
  let img := det.genArr draws
  let sources := combinedSources det.source
  let d1 := updateA det.const_fields "__intime" (.float timestamp)
  let d2 := updateA d1 "cellId"
    (.arr "uint16" [det.pulses] ((List.range det.pulses).map (fun i => (i : Rat))))
  let d3 := updateA d2 "combinedFrom" (.list (sources.map (fun s => .str s)))
  let d4 := updateA d3 "image.data" img
  let d5 := updateA d4 "length"
    (.arr "uint32" [det.pulses, 1] (List.replicate det.pulses ((det.nbytes : Rat))))
  let d6 := updateA d5 "modulesPresents" (.list (List.replicate det.modules (.bool true)))
  let d7 := if det.corrected then
      updateA
        (updateA d6 "image.gain"
          (.arr "uint16" det.data_shape (List.replicate det.shapeCount 0)))
        "passport" (.list (det.corr_passport.map (fun s => .str s)))
    else d6
  let d8 := updateA d7 "pulseCount" (.int det.pulses)
  let d9 := updateA d8 "pulseId"
    (.arr "uint16" [det.pulses] ((List.range det.pulses).map (fun i => (i : Rat))))
  let d10 := updateA d9 "sources" (.list (sources.map (fun s => .str s)))
  updateA d10 "trainId" (.int trainId)

/-- `Detector.gen_data`: the Data and Metadata maps of one fresh train. -/
def gen_data (det : Detector) (trainId : Int) (tsec tfrac : String)
    (draws : Nat → Rat) : SrcMap × SrcMap :=
  ([(det.source, gen_data_props det trainId tsec tfrac draws)],
   gen_metadata det.source tsec tfrac trainId)

/-! ## The train generator -/

/-- The epoch constant the train-id counter starts from. -/
def tidEpoch : Int := 10000000000

/-- The renamed source of the i-th copy (`source + "-" + str(i+1)`). -/
def nthName (source : String) (i : Nat) : String :=
  source ++ "-" ++ Nat.repr (i + 1)

/-- One iteration of the `nsources > 1` copy loop of `generate`: copy the
base source's Data and Metadata under the i-th renamed source, updating the
copied metadata's `source` field. -/
def msStep (source : String) (acc : SrcMap × SrcMap) (i : Nat) : SrcMap × SrcMap :=
  let src := nthName source i
  let d := (lookupA acc.1 source).getD []
  let m := (lookupA acc.2 source).getD []
  (updateA acc.1 src d, updateA acc.2 src (updateA m "source" (.str src)))

/-- The whole `nsources > 1` branch: run the copy loop over `range nsources`,
then delete the unsuffixed original from both maps. -/
def multiSource (source : String) (nsources : Nat) (dm : SrcMap × SrcMap) :
    SrcMap × SrcMap :=
  let res := (List.range nsources).foldl (msStep source) dm
  (res.1.filter (fun q => q.1 != source), res.2.filter (fun q => q.1 != source))

/-- The n-th (zero-based) train yielded by `generate(detector, nsources)`.
`ts n` is the wall-clock string `str(time())` split at its dot for the n-th
call, `draws n` the random draws used by the n-th call. -/
def simTrain (det : Detector) (nsources : Nat) (ts : Nat → String × String)
    (draws : Nat → Nat → Rat) (n : Nat) : SrcMap × SrcMap :=
  let tid : Int := tidEpoch + n
  let dm := gen_data det tid (ts n).1 (ts n).2 (draws n)
  if 1 < nsources then multiSource det.source nsources dm else dm

/-! ## Server construction and serving loops -/

/-- The serialization dispatch shared by `start_gen` and
`ServeInThread.__init__` (note the pickle content-name rewrite). -/
def serCheck (ser : String) : Except String String :=
  if ser = "msgpack" then .ok "msgpack"
  else if ser = "pickle" then .ok "pickle.DEFAULT_PROTOCOL"
  else .error ("Unknown serialisation format " ++ ser)

/-- Externally visible construction effects, in order. -/
inductive SetupEv where
  | bindEndpoint
  | raised (msg : String)
  | serving
deriving DecidableEq

/-- The construction sequence of `start_gen`: it binds its socket FIRST and
only then validates the serialization format and the detector/generator
configuration; the protocol version is never inspected during setup. -/
def start_gen_setup (ser version detector : String) (corrected : Bool)
    (datagen : String) : List SetupEv :=
  let _ := version
  .bindEndpoint ::
    (match serCheck ser with
     | .error e => [.raised e]
     | .ok _ =>
       match getDetector detector "" corrected datagen with
       | .error e => [.raised e]
       | .ok _ => [.serving])

/-- The construction sequence of `ServeInThread.__init__`: serialization and
detector/generator validation happen before the endpoint is bound; the
protocol version is never inspected. -/
def serveInThread_init (ser version detector : String) (corrected : Bool)
    (datagen : String) : List SetupEv :=
  let _ := version
  match serCheck ser with
  | .error e => [.raised e]
  | .ok _ =>
    match getDetector detector "" corrected datagen with
    | .error e => [.raised e]
    | .ok _ => [.bindEndpoint, .serving]

/-- Whether the serving loop keeps running after handling one request. -/
inductive LoopOutcome where
  | endLoop
  | keepServing
deriving DecidableEq

/-- One iteration of the `start_gen` serving loop, abstracted over the
encoded-train stream `g`: reply and advance on `next`, otherwise print
`wrong request` and `break`. -/
def start_gen_handle (g : Nat → List MsgPart) (msg : String) (st : Nat) :
    Option (List MsgPart) × Nat × LoopOutcome :=
  if msg = "next" then (some (g st), st + 1, .keepServing)
  else (none, st, .endLoop)

/-- One iteration of the `ServeInThread.run` loop: reply and advance on
`next`, otherwise print `Unrecognised request` and keep polling. -/
def serveInThread_handle (g : Nat → List MsgPart) (msg : String) (st : Nat) :
    Option (List MsgPart) × Nat × LoopOutcome :=
  if msg = "next" then (some (g st), st + 1, .keepServing)
  else (none, st, .keepServing)

/-! ## Decimal representation: `str(i)` is injective -/

def digitVal (c : Char) : Nat := c.toNat - '0'.toNat

def digitsVal : List Char → Nat
  | [] => 0
  | c :: cs => digitVal c * 10 ^ cs.length + digitsVal cs

/-- Field access `m[src][key]` on a train half. -/
def fieldOf (m : SrcMap) (src key : String) : Option Value :=
  (lookupA m src).bind (fun d => lookupA d key)

/-! ## Object identities and deep copies

`generate` builds its extra sources with `copy.deepcopy`.  To state deep
independence of the copies, Python objects are instrumented with object
identities: every node of a value tree carries an id, `deepcopy` allocates
fresh ids throughout, and an in-place mutation targets an id. -/

/-- A Python object tree with node identities. -/
inductive IVal where
  | leaf (id : Nat) (v : Value)
  | node (id : Nat) (children : List (String × IVal))

mutual
/-- `copy.deepcopy`: rebuild the whole tree with fresh ids from a counter. -/
def copyI : IVal → Nat → IVal × Nat
  | .leaf _ v, c => (.leaf c v, c + 1)
  | .node _ ch, c =>
    let r := copyE ch (c + 1)
    (.node c r.1, r.2)
def copyE : List (String × IVal) → Nat → List (String × IVal) × Nat
  | [], c => ([], c)
  | (k, v) :: rest, c =>
    let rv := copyI v c
    let rr := copyE rest rv.2
    ((k, rv.1) :: rr.1, rr.2)
end

mutual
/-- All object ids reachable from a tree. -/
def idsI : IVal → List Nat
  | .leaf i _ => [i]
  | .node i ch => i :: idsE ch
def idsE : List (String × IVal) → List Nat
  | [] => []
  | (_, v) :: rest => idsI v ++ idsE rest
end

mutual
/-- Forget the identities, recovering the plain value. -/
def eraseI : IVal → Value
  | .leaf _ v => v
  | .node _ ch => .dict (eraseE ch)
def eraseE : List (String × IVal) → List (String × Value)
  | [] => []
  | (k, v) :: rest => (k, eraseI v) :: eraseE rest
end

mutual
/-- In-place mutation of the object with id `tgt`, wherever it occurs. -/
def mutateI : IVal → Nat → Value → IVal
  | .leaf i v, tgt, nv => if i = tgt then .leaf i nv else .leaf i v
  | .node i ch, tgt, nv => .node i (mutateE ch tgt nv)
def mutateE : List (String × IVal) → Nat → Value → List (String × IVal)
  | [], _, _ => []
  | (k, v) :: rest, tgt, nv => (k, mutateI v tgt nv) :: mutateE rest tgt nv
end

/-- `obj[key] = nv` on a dict object (`meta[src]['source'] = src`). -/
def setFieldI (v : IVal) (key : String) (nv : IVal) : IVal :=
  match v with
  | .leaf i w => .leaf i w
  | .node i ch => .node i (updateA ch key nv)

/-- The instrumented `nsources > 1` copy loop of `generate`: for each index
`i` the base source's Data object and Metadata object are deep-copied with
fresh ids, the metadata copy's `source` field is set to the renamed source
(a fresh string object), and the renamed entries are collected in order (the
unsuffixed original is dropped at the end, as in the code). -/
def generateILoop (source : String) (bd bm : IVal) :
    List Nat → Nat → List (String × IVal × IVal) × Nat
  | [], c => ([], c)
  | i :: rest, c =>
    let src := nthName source i
    let rd := copyI bd c
    let rm := copyI bm rd.2
    let m2 := setFieldI rm.1 "source" (.leaf rm.2 (.str src))
    let r := generateILoop source bd bm rest (rm.2 + 1)
    ((src, rd.1, m2) :: r.1, r.2)

/-- The renamed-copy table (source, Data copy, Metadata copy) produced by the
`nsources > 1` branch, with the final id counter. -/
def generateI (source : String) (nsources : Nat) (bd bm : IVal) (c : Nat) :
    List (String × IVal × IVal) × Nat :=
  generateILoop source bd bm (List.range nsources) c

/-! ## Concrete inputs used by witnesses and counterexamples -/

/-- A tiny train: one source with one scalar and one array field. -/
def cd0 : SrcMap := [("s", [("a", .int 1), ("x", .arr "uint16" [2] [3, 4])])]

/-- Metadata for the tiny train. -/
def cm0 : SrcMap := [("s", [("source", .str "s"), ("timestamp.tid", .int 5)])]

/-- A small custom detector record (tiny dimensions keep witnesses cheap). -/
def det0 : Detector := ⟨"SPB/DET/x", true, "zeros", 2, 1, 2, 2, []⟩

/-- A tiny instrumented base Data object (a single leaf with id 0). -/
def bd0 : IVal := .leaf 0 (.int 5)

/-- Children of the tiny instrumented base Metadata object. -/
def bch0 : List (String × IVal) := [("source", .leaf 3 (.str "S")), ("t", .leaf 4 (.int 7))]

/-- The tiny instrumented base Metadata object (a dict node with id 2). -/
def bm0 : IVal := .node 2 bch0

/-- The Data dict left in the caller's hands after `containize` returned. -/
def ctzData (data meta : SrcMap) (ser vers : String) : SrcMap :=
  match containize (data, meta) ser vers with
  | .ok r => r.2.1
  | .error _ => []

/-- Encode at a version, then decode the message: the round trip the spec
states as `decode(encode(t, v), v)`. -/
def roundTrip (vers : String) (data meta : SrcMap) (ser : String) : SrcMap × SrcMap :=
  match containize (data, meta) ser vers with
  | .ok r =>
    match decodeTrain vers r.1 with
    | .ok t => t
    | .error _ => ([], [])
  | .error _ => ([], [])

/-! ## Theorems -/
theorem lookupA_updateA_self {α : Type} (l : List (String × α)) (k : String) (v : α) :
    lookupA (updateA l k v) k = some v := by
  induction l with
  | nil => simp [updateA, lookupA]
  | cons p rest ih =>
    obtain ⟨k0, w⟩ := p
    by_cases h : k0 = k
    · simp [updateA, h, lookupA]
    · simp [updateA, h, lookupA, ih]

theorem lookupA_updateA_ne {α : Type} (l : List (String × α)) (k k' : String) (v : α)
    (h : k' ≠ k) : lookupA (updateA l k v) k' = lookupA l k' := by
  have hkk : k ≠ k' := fun hh => h hh.symm
  induction l with
  | nil => simp [updateA, lookupA, hkk]
  | cons p rest ih =>
    obtain ⟨k0, w⟩ := p
    by_cases h0 : k0 = k
    · subst h0
      simp [updateA, lookupA, hkk]
    · by_cases h1 : k0 = k'
      · subst h1
        simp [updateA, lookupA, h0]
      · simp [updateA, h0, lookupA, h1, ih]

theorem lookupA_append {α : Type} (a b : List (String × α)) (k : String) :
    lookupA (a ++ b) k =
      (match lookupA a k with
       | some v => some v
       | none => lookupA b k) := by
  induction a with
  | nil => simp [lookupA]
  | cons p rest ih =>
    obtain ⟨k0, w⟩ := p
    by_cases h : k0 = k
    · simp [lookupA, h]
    · simp [lookupA, h, ih]

theorem lookupA_eq_none_iff {α : Type} (l : List (String × α)) (k : String) :
    lookupA l k = none ↔ k ∉ keysOf l := by
  induction l with
  | nil => simp [lookupA, keysOf]
  | cons p rest ih =>
    obtain ⟨k0, w⟩ := p
    by_cases h : k0 = k
    · simp [lookupA, h, keysOf]
    · simp only [lookupA, if_neg h]
      rw [ih]
      show k ∉ keysOf rest ↔ ¬ k ∈ k0 :: keysOf rest
      rw [List.mem_cons]
      constructor
      · intro hn hmem
        rcases hmem with he | hm
        · exact h he.symm
        · exact hn hm
      · intro hn hm
        exact hn (Or.inr hm)

theorem lookupA_isSome_of_mem {α : Type} (l : List (String × α)) (k : String)
    (h : k ∈ keysOf l) : (lookupA l k).isSome := by
  cases hl : lookupA l k with
  | none => exact absurd h ((lookupA_eq_none_iff l k).mp hl)
  | some v => rfl

/-- Lookup through a key-only filter: keys satisfying the predicate are found
unchanged. -/
theorem lookupA_filter_of_pos {α : Type} (l : List (String × α)) (p : String → Bool)
    (k : String) (hk : p k = true) :
    lookupA (l.filter (fun q => p q.1)) k = lookupA l k := by
  induction l with
  | nil => simp [lookupA]
  | cons q rest ih =>
    obtain ⟨k0, w⟩ := q
    by_cases h : k0 = k
    · subst h
      simp [List.filter, hk, lookupA]
    · by_cases hp : p k0
      · simp [List.filter, hp, lookupA, h, ih]
      · simp [List.filter, hp, lookupA, h, ih]

theorem lookupA_filter_of_neg {α : Type} (l : List (String × α)) (p : String → Bool)
    (k : String) (hk : p k = false) :
    lookupA (l.filter (fun q => p q.1)) k = none := by
  induction l with
  | nil => simp [lookupA]
  | cons q rest ih =>
    obtain ⟨k0, w⟩ := q
    by_cases hp : p k0
    · have h : k0 ≠ k := by
        intro he
        rw [he, hk] at hp
        exact Bool.noConfusion hp
      simp [List.filter, hp, lookupA, h, ih]
    · simp [List.filter, hp, ih]

theorem keysOf_filter_subset {α : Type} (l : List (String × α)) (p : String × α → Bool) :
    keysOf (l.filter p) ⊆ keysOf l := by
  intro k hk
  obtain ⟨q, hq, hq1⟩ := List.mem_map.mp hk
  exact List.mem_map.mpr ⟨q, List.mem_of_mem_filter hq, hq1⟩

/-- Splitting a nodup-keyed dict by an arbitrary entry predicate and
concatenating both halves does not change any lookup. -/
theorem lookupA_filter_split {α : Type} (l : List (String × α)) (p : String × α → Bool)
    (hnd : (keysOf l).Nodup) (k : String) :
    lookupA (l.filter p ++ l.filter (fun q => !(p q))) k = lookupA l k := by
  induction l with
  | nil => simp [lookupA]
  | cons q rest ih =>
    obtain ⟨k0, w⟩ := q
    have hnd0 := List.nodup_cons.mp (show (k0 :: keysOf rest).Nodup from hnd)
    by_cases hp : p (k0, w)
    · have e1 : List.filter p ((k0, w) :: rest) = (k0, w) :: List.filter p rest := by
        simp [List.filter_cons, hp]
      have e2 : List.filter (fun q => !(p q)) ((k0, w) :: rest) =
          List.filter (fun q => !(p q)) rest := by
        simp [List.filter_cons, hp]
      rw [e1, e2, List.cons_append]
      by_cases h : k0 = k
      · simp [lookupA, h]
      · simp only [lookupA, if_neg h]
        exact ih hnd0.2
    · have e1 : List.filter p ((k0, w) :: rest) = List.filter p rest := by
        simp [List.filter_cons, hp]
      have e2 : List.filter (fun q => !(p q)) ((k0, w) :: rest) =
          (k0, w) :: List.filter (fun q => !(p q)) rest := by
        simp [List.filter_cons, hp]
      rw [e1, e2]
      by_cases h : k0 = k
      · subst h
        have hnone : lookupA (List.filter p rest) k0 = none := by
          rw [lookupA_eq_none_iff]
          exact fun hm => hnd0.1 (keysOf_filter_subset rest p hm)
        rw [lookupA_append, hnone]
        simp [lookupA]
      · rw [lookupA_append]
        have hr : lookupA ((k0, w) :: rest) k = lookupA rest k := by
          simp [lookupA, h]
        rw [hr, ← ih hnd0.2, lookupA_append]
        cases hl : lookupA (List.filter p rest) k <;> simp [hl, lookupA, h]

theorem digitVal_digitChar : ∀ d, d < 10 → digitVal (Nat.digitChar d) = d := by decide

theorem toDigitsCore_val : ∀ (fuel n : Nat) (ds : List Char), n < 10 ^ fuel →
    digitsVal (Nat.toDigitsCore 10 fuel n ds) = n * 10 ^ ds.length + digitsVal ds := by
  intro fuel
  induction fuel with
  | zero =>
    intro n ds h
    have hn : n = 0 := Nat.lt_one_iff.mp (by simpa using h)
    subst hn
    simp [Nat.toDigitsCore]
  | succ fuel ih =>
    intro n ds h
    by_cases h0 : n / 10 = 0
    · have e : Nat.toDigitsCore 10 (fuel + 1) n ds = Nat.digitChar (n % 10) :: ds := by
        simp [Nat.toDigitsCore, h0]
      have hn : n % 10 = n := by omega
      rw [e, digitsVal, digitVal_digitChar _ (Nat.mod_lt _ (by norm_num)), hn]
    · have e : Nat.toDigitsCore 10 (fuel + 1) n ds
          = Nat.toDigitsCore 10 fuel (n / 10) (Nat.digitChar (n % 10) :: ds) := by
        simp [Nat.toDigitsCore, h0]
      have hlt : n / 10 < 10 ^ fuel := by
        rw [Nat.div_lt_iff_lt_mul (by norm_num : (0:Nat) < 10)]
        calc n < 10 ^ (fuel + 1) := h
          _ = 10 ^ fuel * 10 := by ring
      rw [e, ih (n / 10) _ hlt, digitsVal,
        digitVal_digitChar _ (Nat.mod_lt _ (by norm_num))]
      have hmul : n / 10 * 10 + n % 10 = n := by omega
      calc n / 10 * 10 ^ (Nat.digitChar (n % 10) :: ds).length
            + (n % 10 * 10 ^ ds.length + digitsVal ds)
          = (n / 10 * 10 + n % 10) * 10 ^ ds.length + digitsVal ds := by
            simp [List.length_cons]
            ring
        _ = n * 10 ^ ds.length + digitsVal ds := by rw [hmul]

theorem digitsVal_toDigits (n : Nat) : digitsVal (Nat.toDigits 10 n) = n := by
  have h : n < 10 ^ (n + 1) :=
    lt_of_lt_of_le (Nat.lt_pow_self (by norm_num) n)
      (Nat.pow_le_pow_right (by norm_num) (Nat.le_succ n))
  have := toDigitsCore_val (n + 1) n [] h
  simpa [Nat.toDigits, digitsVal] using this

theorem natRepr_injective : Function.Injective Nat.repr := by
  intro a b h
  have hd : Nat.toDigits 10 a = Nat.toDigits 10 b := by
    have hmk : String.mk (Nat.toDigits 10 a) = String.mk (Nat.toDigits 10 b) := h
    injection hmk
  rw [← digitsVal_toDigits a, ← digitsVal_toDigits b, hd]

theorem nthName_injective (source : String) : Function.Injective (nthName source) := by
  intro i j h
  have hdata := congrArg String.data h
  rw [show (nthName source i).data
      = (source ++ "-").data ++ (Nat.repr (i + 1)).data from String.data_append _ _,
    show (nthName source j).data
      = (source ++ "-").data ++ (Nat.repr (j + 1)).data from String.data_append _ _] at hdata
  have hrepr : Nat.repr (i + 1) = Nat.repr (j + 1) := by
    have := List.append_cancel_left hdata
    cases he : Nat.repr (i + 1) with
    | mk d1 =>
      cases he2 : Nat.repr (j + 1) with
      | mk d2 =>
        have e1 : (Nat.repr (i + 1)).data = d1 := by rw [he]
        have e2 : (Nat.repr (j + 1)).data = d2 := by rw [he2]
        rw [e1, e2] at this
        rw [this]
  have := natRepr_injective hrepr
  omega

theorem nthNames_nodup (source : String) (n : Nat) :
    ((List.range n).map (nthName source)).Nodup :=
  (List.nodup_range n).map (nthName_injective source)


theorem gen_metadata_fields (source tsec tfrac : String) (tid : Int) :
    fieldOf (gen_metadata source tsec tfrac tid) source "source" = some (.str source) ∧
    fieldOf (gen_metadata source tsec tfrac tid) source "timestamp"
      = some (.float (tsec ++ "." ++ tfrac)) ∧
    fieldOf (gen_metadata source tsec tfrac tid) source "timestamp.tid"
      = some (.int tid) ∧
    fieldOf (gen_metadata source tsec tfrac tid) source "timestamp.sec"
      = some (.str tsec) ∧
    fieldOf (gen_metadata source tsec tfrac tid) source "timestamp.frac"
      = some (.str (ljust tfrac 18 '0')) := by
  refine ⟨?_, ?_, ?_, ?_, ?_⟩ <;> simp [fieldOf, gen_metadata, gen_metadata_props, lookupA]

theorem gen_data_trainId (det : Detector) (tid : Int) (tsec tfrac : String)
    (draws : Nat → Rat) :
    fieldOf (gen_data det tid tsec tfrac draws).1 det.source "trainId"
      = some (.int tid) := by
  simp [fieldOf, gen_data, gen_data_props, lookupA, lookupA_updateA_self]

theorem gen_data_intime (det : Detector) (tid : Int) (tsec tfrac : String)
    (draws : Nat → Rat) :
    fieldOf (gen_data det tid tsec tfrac draws).1 det.source "__intime"
      = some (.float (tsec ++ "." ++ tfrac)) := by
  cases hc : det.corrected <;>
    simp [fieldOf, gen_data, gen_data_props, hc, lookupA, lookupA_updateA_ne,
      lookupA_updateA_self]

/-- C10: every generated train carries an extra Data field `__intime` (not
among the specified Data fields) whose value is exactly the `timestamp`
value stored in that train's Metadata. -/
theorem C10_intime_equals_meta_timestamp (det : Detector) (tid : Int)
    (tsec tfrac : String) (draws : Nat → Rat) :
    fieldOf (gen_data det tid tsec tfrac draws).1 det.source "__intime"
        = some (.float (tsec ++ "." ++ tfrac)) ∧
    fieldOf (gen_data det tid tsec tfrac draws).2 det.source "timestamp"
        = some (.float (tsec ++ "." ++ tfrac)) :=
  ⟨gen_data_intime det tid tsec tfrac draws,
   (gen_metadata_fields det.source tsec tfrac tid).2.1⟩

/-- C5 (amended): `timestamp.frac` is the fractional string right-padded with
zeros to width 18 and never truncated: its character data is the fractional
part followed by `18 - len` zeros, and its width equals `max 18 len` — 18
exactly when the fractional part has at most 18 characters (as for every
wall-clock timestamp), and more than 18 otherwise. -/
theorem C5_frac_field (source tsec tfrac : String) (tid : Int) :
    fieldOf (gen_metadata source tsec tfrac tid) source "timestamp.frac"
        = some (.str (ljust tfrac 18 '0')) ∧
    (ljust tfrac 18 '0').data = tfrac.data ++ List.replicate (18 - tfrac.length) '0' ∧
    (ljust tfrac 18 '0').length = max 18 tfrac.length := by
  refine ⟨(gen_metadata_fields source tsec tfrac tid).2.2.2.2, ?_, ?_⟩
  · unfold ljust
    by_cases h : 18 ≤ tfrac.length
    · have h0 : 18 - tfrac.length = 0 := by omega
      simp [h, h0]
    · rw [if_neg h, String.data_append]
  · unfold ljust
    by_cases h : 18 ≤ tfrac.length
    · simp [h]
    · rw [if_neg h, String.length_append]
      show tfrac.length + (List.replicate (18 - tfrac.length) '0').length = _
      rw [List.length_replicate]
      omega

/-- C5 counterexample: `str(2 ** -60)` is `'8.673617379884035e-19'`, whose
fractional part after `split('.')` has 19 characters; `ljust(18, '0')` does
not truncate, so the `timestamp.frac` field has width 19, not 18. -/
theorem C5_counterexample :
    fieldOf (gen_metadata "SPB_DET_AGIPD1M-1/DET/0CH0:xtdf" "8"
        "673617379884035e-19" 10000000000)
        "SPB_DET_AGIPD1M-1/DET/0CH0:xtdf" "timestamp.frac"
        = some (.str "673617379884035e-19") ∧
    ("673617379884035e-19" : String).length ≠ 18 := by
  exact ⟨rfl, by decide⟩

theorem updateA_append_of_not_mem {α : Type} (l : List (String × α)) (k : String)
    (v : α) (h : k ∉ keysOf l) : updateA l k v = l ++ [(k, v)] := by
  induction l with
  | nil => rfl
  | cons p rest ih =>
    obtain ⟨k0, w⟩ := p
    have h1 : ¬ k ∈ k0 :: keysOf rest := h
    rw [List.mem_cons] at h1
    push_neg at h1
    have hne : k0 ≠ k := fun he => h1.1 he.symm
    simp only [updateA, if_neg hne, List.cons_append, ih h1.2]

theorem nthName_ne_source (source : String) (i : Nat) : nthName source i ≠ source := by
  intro h
  have hlen := congrArg String.length h
  rw [nthName, String.length_append, String.length_append] at hlen
  have h1 : ("-" : String).length = 1 := rfl
  rw [h1] at hlen
  omega

theorem keysOf_map_pair {β γ : Type} (xs : List γ) (f : γ → String) (g : γ → β) :
    keysOf (xs.map (fun i => (f i, g i))) = xs.map f := by
  induction xs with
  | nil => rfl
  | cons x rest ih =>
    show f x :: keysOf (rest.map (fun i => (f i, g i))) = f x :: rest.map f
    rw [ih]

theorem nthName_not_mem (source : String) (n : Nat) :
    nthName source n ∉ source :: (List.range n).map (nthName source) := by
  intro h
  rcases List.mem_cons.mp h with he | hm
  · exact nthName_ne_source source n he
  · obtain ⟨i, hi, he⟩ := List.mem_map.mp hm
    have := nthName_injective source he
    rw [List.mem_range] at hi
    omega

theorem lookupA_map_mem {β γ : Type} (xs : List γ) (f : γ → String) (g : γ → β)
    (k : String) (hk : k ∈ xs.map f) :
    ∃ i, i ∈ xs ∧ k = f i ∧ lookupA (xs.map (fun i => (f i, g i))) k = some (g i) := by
  induction xs with
  | nil => simp at hk
  | cons x rest ih =>
    by_cases h : f x = k
    · exact ⟨x, List.mem_cons_self x rest, h.symm, by simp [lookupA, h]⟩
    · have hk' : k ∈ rest.map f := by
        rcases List.mem_cons.mp hk with he | hm
        · exact absurd he.symm h
        · exact hm
      obtain ⟨i, hi, he, hl⟩ := ih hk'
      exact ⟨i, List.mem_cons_of_mem x hi, he, by simp [lookupA, h, hl]⟩

theorem multiSource_foldl (source : String) (d0 m0 : Dict) (n : Nat) :
    (List.range n).foldl (msStep source) ([(source, d0)], [(source, m0)])
      = ((source, d0) :: (List.range n).map (fun i => (nthName source i, d0)),
         (source, m0) :: (List.range n).map (fun i => (nthName source i,
            updateA m0 "source" (.str (nthName source i))))) := by
  induction n with
  | zero => simp
  | succ n ih =>
    rw [List.range_succ, List.foldl_append, ih, List.foldl_cons, List.foldl_nil]
    have hfresh := nthName_not_mem source n
    have hf1 : nthName source n
        ∉ keysOf ((source, d0) :: (List.range n).map (fun i => (nthName source i, d0))) := by
      show nthName source n ∉ source :: keysOf ((List.range n).map
        (fun i => (nthName source i, d0)))
      rw [keysOf_map_pair]
      exact hfresh
    have hf2 : nthName source n
        ∉ keysOf ((source, m0) :: (List.range n).map (fun i => (nthName source i,
            updateA m0 "source" (.str (nthName source i))))) := by
      show nthName source n ∉ source :: keysOf ((List.range n).map
        (fun i => (nthName source i, updateA m0 "source" (.str (nthName source i)))))
      rw [keysOf_map_pair]
      exact hfresh
    have hl1 : lookupA ((source, d0) ::
        (List.range n).map (fun i => (nthName source i, d0))) source = some d0 := by
      simp [lookupA]
    have hl2 : lookupA ((source, m0) ::
        (List.range n).map (fun i => (nthName source i,
          updateA m0 "source" (.str (nthName source i))))) source = some m0 := by
      simp [lookupA]
    show msStep source _ n = _
    rw [msStep]
    simp only [hl1, hl2, Option.getD_some]
    rw [updateA_append_of_not_mem _ _ _ hf1, updateA_append_of_not_mem _ _ _ hf2,
      List.map_append, List.map_append]
    simp [List.cons_append]

theorem filter_copies {β : Type} (source : String) (n : Nat) (x : β) (g : Nat → β) :
    ((source, x) :: (List.range n).map (fun i => (nthName source i, g i))).filter
        (fun q => q.1 != source)
      = (List.range n).map (fun i => (nthName source i, g i)) := by
  rw [List.filter_cons]
  simp only [bne_self_eq_false, Bool.false_eq_true, if_false]
  rw [List.filter_eq_self.mpr]
  intro q hq
  obtain ⟨i, hi, he⟩ := List.mem_map.mp hq
  rw [← he]
  exact bne_iff_ne.mpr (nthName_ne_source source i)

theorem multiSource_spec (source : String) (n : Nat) (d0 m0 : Dict) :
    multiSource source n ([(source, d0)], [(source, m0)])
      = ((List.range n).map (fun i => (nthName source i, d0)),
         (List.range n).map (fun i => (nthName source i,
            updateA m0 "source" (.str (nthName source i))))) := by
  unfold multiSource
  rw [multiSource_foldl]
  simp only []
  rw [filter_copies, filter_copies]

theorem gen_data_props_trainId (det : Detector) (tid : Int) (tsec tfrac : String)
    (draws : Nat → Rat) :
    lookupA (gen_data_props det tid tsec tfrac draws) "trainId" = some (.int tid) := by
  simp [gen_data_props, lookupA_updateA_self]

theorem gen_metadata_props_tid (source tsec tfrac : String) (tid : Int) :
    lookupA (gen_metadata_props source tsec tfrac tid) "timestamp.tid"
      = some (.int tid) := by
  simp [gen_metadata_props, lookupA]

/-- C3: the n-th (zero-based) train pulled from `generate` carries
`trainId = 10000000000 + n` in every source's Metadata (`timestamp.tid`) and
Data (`trainId`), for every detector configuration and every `nsources`. -/
theorem C3_trainId_counter (det : Detector) (nsources : Nat)
    (ts : Nat → String × String) (draws : Nat → Nat → Rat) (n : Nat) (src : String)
    (hsrc : src ∈ keysOf (simTrain det nsources ts draws n).2) :
    fieldOf (simTrain det nsources ts draws n).2 src "timestamp.tid"
        = some (.int (tidEpoch + n)) ∧
    fieldOf (simTrain det nsources ts draws n).1 src "trainId"
        = some (.int (tidEpoch + n)) := by
  by_cases h : 1 < nsources
  · have he : simTrain det nsources ts draws n
        = multiSource det.source nsources
            ([(det.source, gen_data_props det (tidEpoch + n) (ts n).1 (ts n).2 (draws n))],
             [(det.source,
               gen_metadata_props det.source (ts n).1 (ts n).2 (tidEpoch + n))]) := by
      simp [simTrain, h, gen_data, gen_metadata]
    have hspec := he.trans (multiSource_spec det.source nsources
      (gen_data_props det (tidEpoch + n) (ts n).1 (ts n).2 (draws n))
      (gen_metadata_props det.source (ts n).1 (ts n).2 (tidEpoch + n)))
    have hA : (simTrain det nsources ts draws n).1
        = (List.range nsources).map (fun i => (nthName det.source i,
            gen_data_props det (tidEpoch + n) (ts n).1 (ts n).2 (draws n))) := by
      rw [hspec]
    have hB : (simTrain det nsources ts draws n).2
        = (List.range nsources).map (fun i => (nthName det.source i,
            updateA (gen_metadata_props det.source (ts n).1 (ts n).2 (tidEpoch + n))
              "source" (.str (nthName det.source i)))) := by
      rw [hspec]
    rw [hB] at hsrc
    rw [hA, hB]
    rw [keysOf_map_pair] at hsrc
    constructor
    · obtain ⟨i, hi, hei, hli⟩ := lookupA_map_mem (List.range nsources)
        (nthName det.source)
        (fun i => updateA
          (gen_metadata_props det.source (ts n).1 (ts n).2 (tidEpoch + n))
          "source" (.str (nthName det.source i))) src hsrc
      rw [fieldOf, hli]
      rw [Option.some_bind]
      rw [lookupA_updateA_ne _ _ _ _ (by decide)]
      exact gen_metadata_props_tid det.source (ts n).1 (ts n).2 (tidEpoch + n)
    · obtain ⟨i, hi, hei, hli⟩ := lookupA_map_mem (List.range nsources)
        (nthName det.source)
        (fun _ => gen_data_props det (tidEpoch + n) (ts n).1 (ts n).2 (draws n))
        src hsrc
      rw [fieldOf, hli]
      rw [Option.some_bind]
      exact gen_data_props_trainId det (tidEpoch + n) (ts n).1 (ts n).2 (draws n)
  · have he : simTrain det nsources ts draws n
        = gen_data det (tidEpoch + n) (ts n).1 (ts n).2 (draws n) := by
      simp [simTrain, h]
    rw [he] at hsrc ⊢
    have hs : src = det.source := by
      simpa [gen_data, gen_metadata, keysOf] using hsrc
    subst hs
    exact ⟨(gen_metadata_fields det.source (ts n).1 (ts n).2 (tidEpoch + n)).2.2.1,
      gen_data_trainId det (tidEpoch + n) (ts n).1 (ts n).2 (draws n)⟩

/-- C3 witness: the tiny detector, one source, third pull (n = 2). -/
theorem C3_trainId_counter_witness :
    ("SPB/DET/x" ∈ keysOf (simTrain det0 1 (fun _ => ("1", "5"))
        (fun _ _ => 0) 2).2) ∧
    (fieldOf (simTrain det0 1 (fun _ => ("1", "5")) (fun _ _ => 0) 2).2
        "SPB/DET/x" "timestamp.tid" = some (.int (tidEpoch + 2)) ∧
     fieldOf (simTrain det0 1 (fun _ => ("1", "5")) (fun _ _ => 0) 2).1
        "SPB/DET/x" "trainId" = some (.int (tidEpoch + 2))) :=
  ⟨by decide, C3_trainId_counter det0 1 (fun _ => ("1", "5")) (fun _ _ => 0) 2
    "SPB/DET/x" (by decide)⟩

theorem lg2F_spec : ∀ (fuel n : Nat), n ≠ 0 → n ≤ fuel →
    2 ^ (lg2F fuel n) ≤ n ∧ n < 2 ^ (lg2F fuel n + 1) := by
  intro fuel
  induction fuel with
  | zero =>
    intro n h0 hle
    omega
  | succ fuel ih =>
    intro n h0 hle
    by_cases h2 : n ≥ 2
    · have hm0 : n / 2 ≠ 0 := by omega
      have hmle : n / 2 ≤ fuel := by omega
      obtain ⟨ih1, ih2⟩ := ih (n / 2) hm0 hmle
      rw [show lg2F (fuel+1) n = lg2F fuel (n / 2) + 1 from by rw [lg2F, if_pos h2]]
      rw [pow_succ, pow_succ]
      omega
    · rw [show lg2F (fuel+1) n = 0 from by rw [lg2F, if_neg h2]]
      omega

theorem lg2_spec (n : Nat) (h0 : n ≠ 0) :
    2 ^ (lg2 n) ≤ n ∧ n < 2 ^ (lg2 n + 1) := lg2F_spec n n h0 (le_refl n)

theorem pow2Z_eq (e : Int) : pow2Z e = (2:Rat) ^ e := by
  cases e with
  | ofNat n =>
    show ((2^n : Nat) : Rat) = (2:Rat) ^ (n : Int)
    rw [zpow_natCast]
    push_cast
    rfl
  | negSucc n =>
    show 1 / ((2^(n+1) : Nat) : Rat) = (2:Rat) ^ (Int.negSucc n)
    rw [zpow_negSucc, one_div]
    push_cast
    rfl

theorem ratExp2_spec (q : Rat) (hq : 0 < q) :
    (2:Rat) ^ (ratExp2 q) ≤ q ∧ q < (2:Rat) ^ (ratExp2 q + 1) := by
  have hnum : 0 < q.num := Rat.num_pos.mpr hq
  have hden : 0 < q.den := q.pos
  have hna : ((q.num.toNat : Int)) = q.num := Int.toNat_of_nonneg (le_of_lt hnum)
  have ha0 : q.num.toNat ≠ 0 := by omega
  have hb0 : q.den ≠ 0 := by omega
  obtain ⟨hA1, hA2⟩ := lg2_spec q.num.toNat ha0
  obtain ⟨hB1, hB2⟩ := lg2_spec q.den hb0
  have hq_eq : (q.num.toNat : Rat) / (q.den : Rat) = q := by
    rw [show ((q.num.toNat : Nat) : Rat) = ((q.num : Int) : Rat) from by exact_mod_cast hna]
    exact Rat.num_div_den q
  have hA1' : (2:Rat) ^ (lg2 q.num.toNat) ≤ (q.num.toNat : Rat) := by exact_mod_cast hA1
  have hA2' : (q.num.toNat : Rat) < (2:Rat) ^ (lg2 q.num.toNat + 1) := by exact_mod_cast hA2
  have hB1' : (2:Rat) ^ (lg2 q.den) ≤ (q.den : Rat) := by exact_mod_cast hB1
  have hB2' : (q.den : Rat) < (2:Rat) ^ (lg2 q.den + 1) := by exact_mod_cast hB2
  have hbpos : (0:Rat) < (q.den : Rat) := by exact_mod_cast hden
  have hapos : (0:Rat) < (q.num.toNat : Rat) := by
    have : 0 < q.num.toNat := by omega
    exact_mod_cast this
  have hupper : q < (2:Rat) ^ (((lg2 q.num.toNat : Int) - (lg2 q.den : Int)) + 1) := by
    have h1 : (q.num.toNat : Rat) / (q.den : Rat)
        < ((2:Rat) ^ (lg2 q.num.toNat + 1)) / ((2:Rat) ^ (lg2 q.den)) :=
      calc (q.num.toNat : Rat) / (q.den : Rat)
          ≤ (q.num.toNat : Rat) / ((2:Rat) ^ (lg2 q.den)) := by gcongr
        _ < ((2:Rat) ^ (lg2 q.num.toNat + 1)) / ((2:Rat) ^ (lg2 q.den)) := by gcongr
    rw [hq_eq] at h1
    have h2 : ((2:Rat) ^ (lg2 q.num.toNat + 1)) / ((2:Rat) ^ (lg2 q.den))
        = (2:Rat) ^ (((lg2 q.num.toNat : Int) - (lg2 q.den : Int)) + 1) := by
      rw [← zpow_natCast (2:Rat) (lg2 q.num.toNat + 1), ← zpow_natCast (2:Rat) (lg2 q.den),
        ← zpow_sub₀ (show (2:Rat) ≠ 0 from by norm_num)]
      congr 1
      push_cast
      ring
    exact h2 ▸ h1
  have hlower : (2:Rat) ^ (((lg2 q.num.toNat : Int) - (lg2 q.den : Int)) - 1) < q := by
    have h1 : ((2:Rat) ^ (lg2 q.num.toNat)) / ((2:Rat) ^ (lg2 q.den + 1))
        < (q.num.toNat : Rat) / (q.den : Rat) :=
      calc ((2:Rat) ^ (lg2 q.num.toNat)) / ((2:Rat) ^ (lg2 q.den + 1))
          ≤ (q.num.toNat : Rat) / ((2:Rat) ^ (lg2 q.den + 1)) := by gcongr
        _ < (q.num.toNat : Rat) / (q.den : Rat) :=
            div_lt_div_of_pos_left hapos hbpos hB2'
    rw [hq_eq] at h1
    have h2 : ((2:Rat) ^ (lg2 q.num.toNat)) / ((2:Rat) ^ (lg2 q.den + 1))
        = (2:Rat) ^ (((lg2 q.num.toNat : Int) - (lg2 q.den : Int)) - 1) := by
      rw [← zpow_natCast (2:Rat) (lg2 q.num.toNat), ← zpow_natCast (2:Rat) (lg2 q.den + 1),
        ← zpow_sub₀ (show (2:Rat) ≠ 0 from by norm_num)]
      congr 1
      push_cast
      ring
    exact h2 ▸ h1
  rw [ratExp2]
  by_cases hcase : pow2Z ((lg2 q.num.toNat : Int) - (lg2 q.den : Int)) ≤ q
  · rw [if_pos hcase]
    refine ⟨?_, hupper⟩
    rw [← pow2Z_eq]
    exact hcase
  · rw [if_neg hcase]
    constructor
    · exact le_of_lt hlower
    · rw [sub_add_cancel]
      rw [pow2Z_eq] at hcase
      exact not_le.mp hcase

theorem ratExp2_1500_1600 (v : Rat) (h1 : 1500 ≤ v) (h2 : v ≤ 1600) :
    ratExp2 v = 10 := by
  have hv : 0 < v := lt_of_lt_of_le (by norm_num) h1
  obtain ⟨hs1, hs2⟩ := ratExp2_spec v hv
  have hlt : (2:Rat) ^ (ratExp2 v) < (2:Rat) ^ (11:Int) :=
    calc (2:Rat) ^ (ratExp2 v) ≤ v := hs1
      _ ≤ 1600 := h2
      _ < 2048 := by norm_num
      _ = (2:Rat) ^ (11:Int) := by norm_num
  have he1 : ratExp2 v < 11 :=
    (zpow_lt_zpow_iff_right₀ (show (1:Rat) < 2 from by norm_num)).mp hlt
  have hgt : (2:Rat) ^ (10:Int) < (2:Rat) ^ (ratExp2 v + 1) :=
    calc (2:Rat) ^ (10:Int) = 1024 := by norm_num
      _ ≤ 1500 := by norm_num
      _ ≤ v := h1
      _ < (2:Rat) ^ (ratExp2 v + 1) := hs2
  have he2 : 10 < ratExp2 v + 1 :=
    (zpow_lt_zpow_iff_right₀ (show (1:Rat) < 2 from by norm_num)).mp hgt
  omega

theorem rneInt_bounds (x : Rat) :
    x - 1/2 ≤ (rneInt x : Rat) ∧ (rneInt x : Rat) ≤ x + 1/2 := by
  have hf1 : ((⌊x⌋ : Int) : Rat) ≤ x := Int.floor_le x
  have hf2 : x < ((⌊x⌋ : Int) : Rat) + 1 := Int.lt_floor_add_one x
  rw [rneInt]
  by_cases hA : x - ⌊x⌋ < 1/2
  · rw [if_pos hA]
    constructor <;> linarith
  · rw [if_neg hA]
    have hA' : 1/2 ≤ x - ((⌊x⌋ : Int) : Rat) := not_lt.mp hA
    by_cases hB : 1/2 < x - ⌊x⌋
    · rw [if_pos hB]
      push_cast
      constructor <;> linarith
    · rw [if_neg hB]
      have hB' : x - ((⌊x⌋ : Int) : Rat) ≤ 1/2 := not_lt.mp hB
      by_cases hC : ⌊x⌋ % 2 = 0
      · rw [if_pos hC]
        constructor <;> linarith
      · rw [if_neg hC]
        push_cast
        constructor <;> linarith

theorem rneInt_le_int (x : Rat) (N : Int) (h : x ≤ (N : Rat)) : rneInt x ≤ N := by
  have hb := (rneInt_bounds x).2
  have hlt : (rneInt x : Rat) < (N : Rat) + 1 := by linarith
  have hlt' : rneInt x < N + 1 := by exact_mod_cast hlt
  omega

theorem rneInt_ge_int (x : Rat) (N : Int) (h : (N : Rat) ≤ x) : N ≤ rneInt x := by
  have hb := (rneInt_bounds x).1
  have hlt : (N : Rat) - 1 < (rneInt x : Rat) := by linarith
  have hlt' : N - 1 < rneInt x := by exact_mod_cast hlt
  omega

theorem roundFl23_mem (v : Rat) (h1 : 1500 ≤ v) (h2 : v ≤ 1600) :
    1500 ≤ roundFl 23 v ∧ roundFl 23 v ≤ 1600 := by
  have hv : 0 < v := lt_of_lt_of_le (by norm_num) h1
  have habs : |v| = v := abs_of_nonneg (le_of_lt hv)
  have he : ratExp2 v = 10 := ratExp2_1500_1600 v h1 h2
  rw [roundFl, if_neg (ne_of_gt hv), if_neg (not_lt.mpr (le_of_lt hv)), habs, he, one_mul]
  rw [show ((10:Int) - ((23:Nat) : Int)) = -13 from by norm_num]
  rw [show pow2Z (-13) = 1/8192 from by rw [pow2Z_eq]; norm_num]
  have hdiv : v / ((1:Rat)/8192) = v * 8192 := by field_simp
  rw [hdiv]
  have hlow : ((12288000 : Int) : Rat) ≤ v * 8192 := by push_cast; nlinarith
  have hhigh : v * 8192 ≤ ((13107200 : Int) : Rat) := by push_cast; nlinarith
  have hN1 := rneInt_ge_int _ _ hlow
  have hN2 := rneInt_le_int _ _ hhigh
  have hN1' : ((12288000 : Int) : Rat) ≤ (rneInt (v * 8192) : Rat) := by exact_mod_cast hN1
  have hN2' : (rneInt (v * 8192) : Rat) ≤ ((13107200 : Int) : Rat) := by exact_mod_cast hN2
  push_cast at hN1' hN2'
  constructor <;> nlinarith

theorem roundF32_endpoint : roundFl 23 ((1600:Rat) - 1/32768) = 1600 := by
  have h1 : (1500:Rat) ≤ 1600 - 1/32768 := by norm_num
  have h2 : ((1600:Rat) - 1/32768) ≤ 1600 := by norm_num
  have hv : (0:Rat) < 1600 - 1/32768 := by norm_num
  have habs : |(1600:Rat) - 1/32768| = 1600 - 1/32768 := abs_of_nonneg (le_of_lt hv)
  have he : ratExp2 ((1600:Rat) - 1/32768) = 10 := ratExp2_1500_1600 _ h1 h2
  rw [roundFl, if_neg (ne_of_gt hv), if_neg (not_lt.mpr (le_of_lt hv)), habs, he, one_mul]
  rw [show ((10:Int) - ((23:Nat) : Int)) = -13 from by norm_num]
  rw [show pow2Z (-13) = 1/8192 from by rw [pow2Z_eq]; norm_num]
  rw [show ((1600:Rat) - 1/32768) / ((1:Rat)/8192) = 13107200 - 1/4 from by norm_num]
  have hfl : (⌊(13107200:Rat) - 1/4⌋ : Int) = 13107199 := by
    norm_num [Int.floor_eq_iff]
  have hrne : rneInt ((13107200:Rat) - 1/4) = 13107200 := by
    rw [rneInt, hfl]
    norm_num
  rw [hrne]
  norm_num

theorem castTo_bound (dtype : String) (x : Rat) (h1 : 1500 ≤ x) (h2 : x ≤ 1600) :
    1500 ≤ castTo dtype x ∧ castTo dtype x ≤ 1600 := by
  unfold castTo
  by_cases hd : dtype = "uint16"
  · rw [if_pos hd]
    have hx0 : (0 : Rat) ≤ x := le_trans (by norm_num) h1
    have hnum : 0 ≤ x.num := Rat.num_nonneg.mpr hx0
    have hden : (0 : Int) ≤ (x.den : Int) := Int.natCast_nonneg _
    have htr : truncInt x = ⌊x⌋ := by
      rw [truncInt, Int.tdiv_eq_ediv hnum hden, Rat.floor_def]
    have hf1 : (1500 : Int) ≤ ⌊x⌋ := Int.le_floor.mpr (by exact_mod_cast h1)
    have hfle : ((⌊x⌋ : Int) : Rat) ≤ (1600:Rat) := le_trans (Int.floor_le x) h2
    have hf2 : ⌊x⌋ ≤ (1600 : Int) := by exact_mod_cast hfle
    have hmod : truncInt x % 65536 = truncInt x := by
      rw [htr]
      exact Int.emod_eq_of_lt (by omega) (by omega)
    rw [hmod, htr]
    constructor
    · exact_mod_cast hf1
    · exact_mod_cast hf2
  · rw [if_neg hd]
    by_cases hf : dtype = "float32"
    · rw [if_pos hf]
      exact roundFl23_mem x h1 h2
    · rw [if_neg hf]
      exact ⟨h1, h2⟩

/-- C9 (amended): for every detector configuration, the `zeros` generator
returns an array of shape `(modules, mod_y, mod_x, pulses)` in the family
dtype (`float32` when corrected, `uint16` when raw) with no non-zero
element, and the `random` generator returns an array of that shape whose
every element lies in the CLOSED interval `[1500, 1600]` after conversion to
the dtype.  The original half-open bound `[1500, 1600)` fails: the uniform
samples range over `[1500, 1600]` (numpy documents that the `high` endpoint
can be returned because `low + (high - low) * sample` rounds in float64),
and `astype(np.float32)` rounds every sample within half an ulp below 1600
up to exactly 1600. -/
theorem C9_generators (det : Detector) (u : Nat → Rat)
    (hu : ∀ i, 1500 ≤ u i ∧ u i ≤ 1600) :
    (det.zerosArr = .arr det.data_type det.data_shape
        (List.replicate det.shapeCount 0) ∧
      ∀ q ∈ List.replicate det.shapeCount (0 : Rat), q = 0) ∧
    (∃ el, det.randomArr u = .arr det.data_type det.data_shape el ∧
      el.length = det.shapeCount ∧ ∀ q ∈ el, 1500 ≤ q ∧ q ≤ 1600) ∧
    det.data_type = (if det.corrected then "float32" else "uint16") ∧
    det.data_shape = [det.modules, det.mod_y, det.mod_x, det.pulses] := by
  refine ⟨⟨rfl, fun q hq => List.eq_of_mem_replicate hq⟩, ⟨_, rfl, ?_, ?_⟩, rfl, rfl⟩
  · simp
  · intro q hq
    obtain ⟨i, hi, he⟩ := List.mem_map.mp hq
    rw [← he]
    exact castTo_bound det.data_type _ (hu i).1 (hu i).2

/-- C9 witness: the tiny detector with the constant draw 1550. -/
theorem C9_generators_witness :
    (∀ i : Nat, 1500 ≤ (fun _ : Nat => (1550 : Rat)) i ∧
        (fun _ : Nat => (1550 : Rat)) i ≤ 1600) ∧
    ((det0.zerosArr = .arr det0.data_type det0.data_shape
        (List.replicate det0.shapeCount 0) ∧
      ∀ q ∈ List.replicate det0.shapeCount (0 : Rat), q = 0) ∧
     (∃ el, det0.randomArr (fun _ : Nat => (1550 : Rat))
          = .arr det0.data_type det0.data_shape el ∧
        el.length = det0.shapeCount ∧ ∀ q ∈ el, 1500 ≤ q ∧ q ≤ 1600) ∧
     det0.data_type = (if det0.corrected then "float32" else "uint16") ∧
     det0.data_shape = [det0.modules, det0.mod_y, det0.mod_x, det0.pulses]) :=
  ⟨fun i => by norm_num, C9_generators det0 _ (fun i => by norm_num)⟩

/-- C9 counterexample: a uniform sample strictly inside `[1500, 1600)` whose
float32 conversion is exactly 1600: the draw `1600 - 2^-15` is within half a
float32 ulp of 1600, so `astype(np.float32)` rounds it up and the `random`
array of the corrected example detector contains the element 1600, violating
the original strict bound `element < 1600`. -/
theorem C9_counterexample :
    (1500 ≤ ((1600:Rat) - 1/32768) ∧ ((1600:Rat) - 1/32768) < 1600) ∧
    ¬ (∃ el, det0.randomArr (fun _ : Nat => (1600:Rat) - 1/32768)
          = .arr det0.data_type det0.data_shape el ∧
        ∀ q ∈ el, 1500 ≤ q ∧ q < 1600) := by
  constructor
  · constructor <;> norm_num
  · rintro ⟨el, he, hb⟩
    have hcast : castTo det0.data_type ((1600:Rat) - 1/32768) = 1600 := by
      show castTo "float32" ((1600:Rat) - 1/32768) = 1600
      rw [castTo, if_neg (by decide), if_pos rfl]
      exact roundF32_endpoint
    have harr : det0.randomArr (fun _ : Nat => (1600:Rat) - 1/32768)
        = .arr det0.data_type det0.data_shape
            ((List.range det0.shapeCount).map
              (fun i => castTo det0.data_type ((1600:Rat) - 1/32768))) := rfl
    rw [harr] at he
    injection he with hdt hsh hel
    have hmem : (1600:Rat) ∈ el := by
      rw [← hel]
      exact List.mem_map.mpr ⟨0, List.mem_range.mpr (by decide), hcast⟩
    have hlt := (hb 1600 hmem).2
    norm_num at hlt

/-- C6 (amended): unknown serialization formats and unknown
detector/generator names raise synchronously during construction and are
never replaced by defaults — but only `ServeInThread.__init__` validates
before binding its endpoint: `start_gen` binds its socket FIRST and
validates afterwards.  An unsupported protocol version is not checked at
construction at all (both constructions succeed); it is rejected only when
the first train is encoded by `containize`. -/
theorem C6_construction_validation (ser version detector datagen : String)
    (corrected : Bool) :
    (∀ e, serCheck ser = .error e →
      serveInThread_init ser version detector corrected datagen = [.raised e] ∧
      start_gen_setup ser version detector corrected datagen
        = [.bindEndpoint, .raised e]) ∧
    (∀ s e, serCheck ser = .ok s →
      getDetector detector "" corrected datagen = .error e →
      serveInThread_init ser version detector corrected datagen = [.raised e] ∧
      start_gen_setup ser version detector corrected datagen
        = [.bindEndpoint, .raised e]) ∧
    (∀ s d, serCheck ser = .ok s →
      getDetector detector "" corrected datagen = .ok d →
      serveInThread_init ser version detector corrected datagen
        = [.bindEndpoint, .serving] ∧
      start_gen_setup ser version detector corrected datagen
        = [.bindEndpoint, .serving]) ∧
    (∀ train : SrcMap × SrcMap,
      ¬ (version = "1.0" ∨ version = "2.0" ∨ version = "2.1" ∨ version = "2.2") →
      containize train ser version = .error ("Invalid version " ++ version)) := by
  refine ⟨?_, ?_, ?_, ?_⟩
  · intro e he
    constructor <;> simp [serveInThread_init, start_gen_setup, he]
  · intro s e hs he
    constructor <;> simp [serveInThread_init, start_gen_setup, hs, he]
  · intro s d hs hd
    constructor <;> simp [serveInThread_init, start_gen_setup, hs, hd]
  · intro train hv
    simp [containize, hv]

/-- C6 witness: an unknown serialization format raises in both constructions,
before the bind in the threaded server but after it in `start_gen`. -/
theorem C6_construction_validation_witness :
    serveInThread_init "pickles" "2.2" "AGIPD" true "random"
        = [.raised "Unknown serialisation format pickles"] ∧
    start_gen_setup "pickles" "2.2" "AGIPD" true "random"
        = [.bindEndpoint, .raised "Unknown serialisation format pickles"] :=
  (C6_construction_validation "pickles" "2.2" "AGIPD" "random" true).1
    "Unknown serialisation format pickles" rfl

/-- C6 counterexample: with the unsupported protocol version "9.9",
`start_gen`'s construction completes and starts serving — no error is raised
before a network resource is bound (the version is never validated during
construction); and with an invalid serialization format the error is raised
only AFTER the socket was bound. -/
theorem C6_counterexample :
    start_gen_setup "msgpack" "9.9" "AGIPD" true "random"
        = [.bindEndpoint, .serving] ∧
    start_gen_setup "bogus" "2.2" "AGIPD" true "random"
        = [.bindEndpoint, .raised "Unknown serialisation format bogus"] := ⟨rfl, rfl⟩

/-- C8 (amended): on a request other than the literal `next`, neither server
pulls a train from the generator or sends a reply; `start_gen` then breaks
out of its serving loop, but `ServeInThread.run` keeps serving. -/
theorem C8_unexpected_request (g : Nat → List MsgPart) (msg : String) (st : Nat)
    (h : msg ≠ "next") :
    start_gen_handle g msg st = (none, st, .endLoop) ∧
    serveInThread_handle g msg st = (none, st, .keepServing) := by
  constructor <;> simp [start_gen_handle, serveInThread_handle, h]

/-- C8 witness at the request "stop". -/
theorem C8_unexpected_request_witness :
    ("stop" ≠ "next") ∧
    (start_gen_handle (fun _ => []) "stop" 0 = (none, 0, .endLoop) ∧
     serveInThread_handle (fun _ => []) "stop" 0 = (none, 0, .keepServing)) :=
  ⟨by decide, C8_unexpected_request (fun _ => []) "stop" 0 (by decide)⟩

/-- C8 counterexample: the threaded server does NOT end its serving loop on
an unexpected request — it keeps polling, contradicting the claim that the
serving loop always ends. -/
theorem C8_counterexample :
    (serveInThread_handle (fun _ => []) "stop" 0).2.2 = LoopOutcome.keepServing ∧
    LoopOutcome.keepServing ≠ LoopOutcome.endLoop := ⟨rfl, by decide⟩

/-- C7 counterexample: encoding the tiny train at version 2.2 removes the
array field `x` from the caller's Data dict, so a train handed to the
encoder is NOT left unchanged. -/
theorem C7_counterexample :
    ¬ smapEq (ctzData cd0 cm0 "msgpack" "2.2") cd0 := by
  intro h
  have h1 := h "s"
  rw [show lookupA (ctzData cd0 cm0 "msgpack" "2.2") "s"
      = some [("a", Value.int 1)] from rfl,
    show lookupA cd0 "s"
      = some [("a", Value.int 1), ("x", Value.arr "uint16" [2] [3, 4])] from rfl] at h1
  have h2 : dictEq [("a", Value.int 1)]
      [("a", Value.int 1), ("x", Value.arr "uint16" [2] [3, 4])] := h1
  have h3 := h2 "x"
  rw [show lookupA [("a", Value.int 1)] "x" = none from rfl,
    show lookupA [("a", Value.int 1), ("x", Value.arr "uint16" [2] [3, 4])] "x"
      = some (Value.arr "uint16" [2] [3, 4]) from rfl] at h3
  exact Option.noConfusion h3

theorem keysOf_updateA_mem {α : Type} (l : List (String × α)) (k : String) (v : α)
    (h : k ∈ keysOf l) : keysOf (updateA l k v) = keysOf l := by
  induction l with
  | nil => simp [keysOf] at h
  | cons p rest ih =>
    obtain ⟨k0, w⟩ := p
    by_cases he : k0 = k
    · subst he
      simp [updateA, keysOf]
    · have h' : k ∈ keysOf rest := by
        rcases List.mem_cons.mp h with h1 | h2
        · exact absurd h1.symm he
        · exact h2
      simp only [updateA, if_neg he]
      show k0 :: keysOf (updateA rest k v) = k0 :: keysOf rest
      rw [ih h']

theorem mergeMeta10_ok (data meta : SrcMap)
    (h : ∀ src ∈ keysOf meta, src ∈ keysOf data) :
    ∃ d1, mergeMeta10 data meta = .ok d1 ∧ keysOf d1 = keysOf data := by
  induction meta generalizing data with
  | nil => exact ⟨data, rfl, rfl⟩
  | cons p rest ih =>
    obtain ⟨key, value⟩ := p
    have hm : key ∈ keysOf data := h key (List.mem_cons_self key _)
    obtain ⟨props, hp⟩ := Option.isSome_iff_exists.mp
      (lookupA_isSome_of_mem data key hm)
    have hk : keysOf (updateA data key (updateA props "metadata" (.dict value)))
        = keysOf data := keysOf_updateA_mem data key _ hm
    obtain ⟨d1, hd1, hkd⟩ := ih (updateA data key (updateA props "metadata" (.dict value)))
      (fun s hs => by rw [hk]; exact h s (List.mem_cons_of_mem _ hs))
    refine ⟨d1, ?_, by rw [hkd, hk]⟩
    rw [mergeMeta10, hp]
    exact hd1

theorem arrParts_length (src : String) (props : Dict) :
    (arrParts src props).length = 2 * (props.filter (fun q => isArrV q.2)).length := by
  induction props with
  | nil => rfl
  | cons q rest ih =>
    obtain ⟨k, v⟩ := q
    cases v <;> simp [arrParts, isArrV, List.filter_cons, ih] <;> omega

theorem srcSegment_length (ser vers src : String) (props md : Dict) :
    (srcSegment ser vers src props md).length
      = 2 + 2 * (props.filter (fun q => isArrV q.2)).length := by
  simp [srcSegment, arrParts_length]
  omega

theorem buildMsg_ok (ser vers : String) (meta : SrcMap) (data : SrcMap)
    (h : ∀ src ∈ keysOf data, src ∈ keysOf meta) :
    buildMsg ser vers meta data
      = .ok (data.flatMap (fun p =>
          srcSegment ser vers p.1 p.2 ((lookupA meta p.1).getD []))) := by
  induction data with
  | nil => rfl
  | cons p rest ih =>
    obtain ⟨src, props⟩ := p
    have hm : src ∈ keysOf meta := h src (List.mem_cons_self src _)
    obtain ⟨md, hmd⟩ := Option.isSome_iff_exists.mp
      (lookupA_isSome_of_mem meta src hm)
    have hr := ih (fun s hs => h s (List.mem_cons_of_mem _ hs))
    rw [buildMsg, hmd, hr]
    simp [List.flatMap_cons, hmd]

/-- C2: version 1.0 encodes the whole train as exactly ONE message part;
version 2.2 emits, per source, a contiguous segment of exactly `2 + 2k`
parts (a header part and a dict-payload part, then a header part and a
raw-bytes part per array field), `k` being that source's array-field count —
so the whole message has `sum (2 + 2k)` parts. -/
theorem C2_part_counts (data meta : SrcMap) (ser : String)
    (hkeys : keysOf data = keysOf meta) :
    (∃ r, containize (data, meta) ser "1.0" = .ok r ∧ r.1.length = 1) ∧
    (∃ r, containize (data, meta) ser "2.2" = .ok r ∧
      r.1 = data.flatMap (fun p =>
        srcSegment ser "2.2" p.1 p.2 ((lookupA meta p.1).getD [])) ∧
      (∀ p ∈ data, (srcSegment ser "2.2" p.1 p.2 ((lookupA meta p.1).getD [])).length
          = 2 + 2 * (p.2.filter (fun q => isArrV q.2)).length) ∧
      r.1.length = (data.map (fun p =>
        2 + 2 * (p.2.filter (fun q => isArrV q.2)).length)).sum) := by
  constructor
  · obtain ⟨d1, hd1, _⟩ := mergeMeta10_ok data meta
      (fun s hs => by rw [hkeys]; exact hs)
    refine ⟨([MsgPart.ser (srcMapValue d1)], d1, meta), ?_, rfl⟩
    simp [containize, hd1]
  · have hb := buildMsg_ok ser "2.2" meta data
      (fun s hs => by rw [← hkeys]; exact hs)
    refine ⟨(data.flatMap (fun p =>
        srcSegment ser "2.2" p.1 p.2 ((lookupA meta p.1).getD [])),
      stripArrays data, meta), ?_, rfl, ?_, ?_⟩
    · simp [containize, hb]
    · intro p _
      exact srcSegment_length ser "2.2" p.1 p.2 _
    · rw [List.length_flatMap]
      congr 1
      apply List.map_congr_left
      intro p _
      exact srcSegment_length ser "2.2" p.1 p.2 _

/-- C2 witness: the tiny train, whose single source has one array field. -/
theorem C2_part_counts_witness :
    (keysOf cd0 = keysOf cm0) ∧
    ((∃ r, containize (cd0, cm0) "msgpack" "1.0" = .ok r ∧ r.1.length = 1) ∧
     (∃ r, containize (cd0, cm0) "msgpack" "2.2" = .ok r ∧
       r.1 = cd0.flatMap (fun p =>
         srcSegment "msgpack" "2.2" p.1 p.2 ((lookupA cm0 p.1).getD [])) ∧
       (∀ p ∈ cd0, (srcSegment "msgpack" "2.2" p.1 p.2
            ((lookupA cm0 p.1).getD [])).length
           = 2 + 2 * (p.2.filter (fun q => isArrV q.2)).length) ∧
       r.1.length = (cd0.map (fun p =>
         2 + 2 * (p.2.filter (fun q => isArrV q.2)).length)).sum)) :=
  ⟨rfl, C2_part_counts cd0 cm0 "msgpack" rfl⟩

mutual
theorem copyI_counter_le (v : IVal) (c : Nat) : c ≤ (copyI v c).2 := by
  match v with
  | .leaf i w => simp [copyI]
  | .node i ch =>
    have := copyE_counter_le ch (c + 1)
    simp only [copyI]
    omega
theorem copyE_counter_le (ch : List (String × IVal)) (c : Nat) : c ≤ (copyE ch c).2 := by
  match ch with
  | [] => simp [copyE]
  | (k, v) :: rest =>
    have h1 := copyI_counter_le v c
    have h2 := copyE_counter_le rest (copyI v c).2
    simp only [copyE]
    omega
end

mutual
theorem copyI_ids_range (v : IVal) (c : Nat) :
    ∀ id ∈ idsI (copyI v c).1, c ≤ id ∧ id < (copyI v c).2 := by
  match v with
  | .leaf i w => simp [copyI, idsI]
  | .node i ch =>
    intro id hid
    simp only [copyI, idsI] at hid ⊢
    rcases List.mem_cons.mp hid with he | hm
    · have := copyE_counter_le ch (c + 1)
      omega
    · have := copyE_ids_range ch (c + 1) id hm
      omega
theorem copyE_ids_range (ch : List (String × IVal)) (c : Nat) :
    ∀ id ∈ idsE (copyE ch c).1, c ≤ id ∧ id < (copyE ch c).2 := by
  match ch with
  | [] => simp [copyE, idsE]
  | (k, v) :: rest =>
    intro id hid
    simp only [copyE, idsE] at hid ⊢
    rcases List.mem_append.mp hid with hm | hm
    · have := copyI_ids_range v c id hm
      have := copyE_counter_le rest (copyI v c).2
      omega
    · have := copyE_ids_range rest (copyI v c).2 id hm
      have := copyI_counter_le v c
      omega
end

mutual
theorem copyI_erase (v : IVal) (c : Nat) : eraseI (copyI v c).1 = eraseI v := by
  match v with
  | .leaf i w => rfl
  | .node i ch =>
    simp only [copyI, eraseI]
    rw [copyE_erase ch (c + 1)]
theorem copyE_erase (ch : List (String × IVal)) (c : Nat) :
    eraseE (copyE ch c).1 = eraseE ch := by
  match ch with
  | [] => rfl
  | (k, v) :: rest =>
    simp only [copyE, eraseE]
    rw [copyI_erase v c, copyE_erase rest (copyI v c).2]
end

mutual
theorem mutateI_not_mem (w : IVal) (tgt : Nat) (nv : Value) (h : tgt ∉ idsI w) :
    mutateI w tgt nv = w := by
  match w with
  | .leaf i v =>
    have hne : i ≠ tgt := by
      intro he
      exact h (by simp [idsI, he])
    simp [mutateI, hne]
  | .node i ch =>
    have h' : tgt ∉ idsE ch := by
      intro hm
      exact h (by simp [idsI, hm])
    simp only [mutateI]
    rw [mutateE_not_mem ch tgt nv h']
theorem mutateE_not_mem (ch : List (String × IVal)) (tgt : Nat) (nv : Value)
    (h : tgt ∉ idsE ch) : mutateE ch tgt nv = ch := by
  match ch with
  | [] => rfl
  | (k, v) :: rest =>
    have h1 : tgt ∉ idsI v := by
      intro hm
      exact h (by simp [idsE, hm])
    have h2 : tgt ∉ idsE rest := by
      intro hm
      exact h (by simp [idsE, hm])
    simp only [mutateE]
    rw [mutateI_not_mem v tgt nv h1, mutateE_not_mem rest tgt nv h2]
end

theorem idsE_updateA_subset (ch : List (String × IVal)) (k : String) (nv : IVal) :
    ∀ id ∈ idsE (updateA ch k nv), id ∈ idsE ch ∨ id ∈ idsI nv := by
  induction ch with
  | nil =>
    intro id hid
    simp only [updateA, idsE] at hid
    rcases List.mem_append.mp hid with hm | hm
    · exact Or.inr hm
    · simp [idsE] at hm
  | cons p rest ih =>
    obtain ⟨k0, v0⟩ := p
    intro id hid
    by_cases he : k0 = k
    · simp only [updateA, if_pos he, idsE] at hid
      rcases List.mem_append.mp hid with hm | hm
      · exact Or.inr hm
      · exact Or.inl (by simp [idsE, hm])
    · simp only [updateA, if_neg he, idsE] at hid
      rcases List.mem_append.mp hid with hm | hm
      · exact Or.inl (by simp [idsE, hm])
      · rcases ih id hm with h1 | h1
        · exact Or.inl (by simp [idsE, h1])
        · exact Or.inr h1

theorem idsI_setFieldI_subset (w : IVal) (k : String) (nv : IVal) :
    ∀ id ∈ idsI (setFieldI w k nv), id ∈ idsI w ∨ id ∈ idsI nv := by
  match w with
  | .leaf i v => exact fun id hid => Or.inl hid
  | .node i ch =>
    intro id hid
    simp only [setFieldI, idsI] at hid ⊢
    rcases List.mem_cons.mp hid with he | hm
    · exact Or.inl (by simp [he])
    · rcases idsE_updateA_subset ch k nv id hm with h1 | h1
      · exact Or.inl (by simp [h1])
      · exact Or.inr h1

theorem eraseE_updateA (ch : List (String × IVal)) (k : String) (nv : IVal) :
    eraseE (updateA ch k nv) = updateA (eraseE ch) k (eraseI nv) := by
  induction ch with
  | nil => rfl
  | cons p rest ih =>
    obtain ⟨k0, v0⟩ := p
    by_cases he : k0 = k
    · simp [updateA, he, eraseE]
    · simp [updateA, he, eraseE, ih]

theorem step_ids_bound (source : String) (bd bm : IVal) (i : Nat) (c : Nat) :
    ∀ id, id ∈ idsI (copyI bd c).1
        ++ idsI (setFieldI (copyI bm (copyI bd c).2).1 "source"
             (.leaf (copyI bm (copyI bd c).2).2 (.str (nthName source i)))) →
      c ≤ id ∧ id < (copyI bm (copyI bd c).2).2 + 1 := by
  intro id hid
  rcases List.mem_append.mp hid with hm | hm
  · have h1 := copyI_ids_range bd c id hm
    have h2 := copyI_counter_le bm (copyI bd c).2
    omega
  · rcases idsI_setFieldI_subset _ _ _ id hm with h1 | h1
    · have h2 := copyI_ids_range bm (copyI bd c).2 id h1
      have h3 := copyI_counter_le bd c
      omega
    · simp only [idsI, List.mem_singleton] at h1
      have h2 := copyI_counter_le bd c
      have h3 := copyI_counter_le bm (copyI bd c).2
      omega

theorem generateILoop_keys (source : String) (bd bm : IVal) :
    ∀ (is : List Nat) (c : Nat),
      (generateILoop source bd bm is c).1.map Prod.fst = is.map (nthName source) := by
  intro is
  induction is with
  | nil => intro c; rfl
  | cons i rest ih =>
    intro c
    simp only [generateILoop, List.map_cons]
    rw [ih]

theorem generateILoop_erase (source : String) (bd bm : IVal) (bid : Nat)
    (bch : List (String × IVal)) (hbm : bm = .node bid bch) :
    ∀ (is : List Nat) (c : Nat),
      (generateILoop source bd bm is c).1.map (fun p => (p.1, eraseI p.2.1))
          = is.map (fun i => (nthName source i, eraseI bd)) ∧
      (generateILoop source bd bm is c).1.map (fun p => (p.1, eraseI p.2.2))
          = is.map (fun i => (nthName source i,
              Value.dict (updateA (eraseE bch) "source"
                (Value.str (nthName source i))))) := by
  intro is
  induction is with
  | nil => intro c; exact ⟨rfl, rfl⟩
  | cons i rest ih =>
    intro c
    obtain ⟨ih1, ih2⟩ := ih ((copyI bm (copyI bd c).2).2 + 1)
    constructor
    · simp only [generateILoop, List.map_cons]
      rw [ih1, copyI_erase]
    · simp only [generateILoop, List.map_cons]
      rw [ih2]
      congr 1
      subst hbm
      simp only [copyI, setFieldI, eraseI]
      rw [eraseE_updateA, copyE_erase]
      simp [eraseI]

theorem generateILoop_ids_lb (source : String) (bd bm : IVal) :
    ∀ (is : List Nat) (c : Nat), ∀ p ∈ (generateILoop source bd bm is c).1,
      ∀ id, id ∈ idsI p.2.1 ++ idsI p.2.2 → c ≤ id := by
  intro is
  induction is with
  | nil =>
    intro c p hp
    simp [generateILoop] at hp
  | cons i rest ih =>
    intro c p hp
    simp only [generateILoop] at hp
    rcases List.mem_cons.mp hp with he | hm
    · intro id hid
      rw [he] at hid
      exact (step_ids_bound source bd bm i c id hid).1
    · intro id hid
      have h1 := ih ((copyI bm (copyI bd c).2).2 + 1) p hm id hid
      have h2 := copyI_counter_le bd c
      have h3 := copyI_counter_le bm (copyI bd c).2
      omega

theorem generateILoop_disjoint (source : String) (bd bm : IVal) :
    ∀ (is : List Nat) (c : Nat),
      List.Pairwise (fun p q => ∀ id, id ∈ idsI p.2.1 ++ idsI p.2.2 →
          id ∉ idsI q.2.1 ++ idsI q.2.2)
        (generateILoop source bd bm is c).1 := by
  intro is
  induction is with
  | nil =>
    intro c
    simp [generateILoop]
  | cons i rest ih =>
    intro c
    simp only [generateILoop]
    refine List.Pairwise.cons ?_ (ih _)
    intro q hq id hid hq2
    have h1 := (step_ids_bound source bd bm i c id hid).2
    have h2 := generateILoop_ids_lb source bd bm rest
      ((copyI bm (copyI bd c).2).2 + 1) q hq id hq2
    omega

/-- C4: with `nsources = N > 1`, `generate` produces exactly N source keys,
namely the base name suffixed `-1` through `-N` (all distinct, the unsuffixed
base absent); each copy's Data content equals the base Data content and each
copy's Metadata equals the base Metadata with only its `source` field set to
the renamed key; and because each copy is built by `copy.deepcopy` with fresh
object identities, distinct copies share no object id, so an in-place
mutation of any object of one copy leaves every other copy unchanged. -/
theorem C4_multi_source_deepcopy (source : String) (n : Nat) (bd bm : IVal)
    (bid : Nat) (bch : List (String × IVal)) (c0 : Nat)
    (hn : 1 < n) (hbm : bm = .node bid bch) :
    (generateI source n bd bm c0).1.map Prod.fst
        = (List.range n).map (nthName source) ∧
    ((generateI source n bd bm c0).1.map Prod.fst).Nodup ∧
    source ∉ (generateI source n bd bm c0).1.map Prod.fst ∧
    (generateI source n bd bm c0).1.length = n ∧
    (∀ p ∈ (generateI source n bd bm c0).1,
      eraseI p.2.1 = eraseI bd ∧
      eraseI p.2.2 = Value.dict (updateA (eraseE bch) "source" (Value.str p.1))) ∧
    List.Pairwise (fun p q => ∀ tgt nv,
      (tgt ∈ idsI p.2.1 ++ idsI p.2.2 →
        mutateI q.2.1 tgt nv = q.2.1 ∧ mutateI q.2.2 tgt nv = q.2.2) ∧
      (tgt ∈ idsI q.2.1 ++ idsI q.2.2 →
        mutateI p.2.1 tgt nv = p.2.1 ∧ mutateI p.2.2 tgt nv = p.2.2))
      (generateI source n bd bm c0).1 := by
  have hkeys : (generateI source n bd bm c0).1.map Prod.fst
      = (List.range n).map (nthName source) :=
    generateILoop_keys source bd bm (List.range n) c0
  refine ⟨hkeys, ?_, ?_, ?_, ?_, ?_⟩
  · rw [hkeys]
    exact nthNames_nodup source n
  · rw [hkeys]
    intro hmem
    obtain ⟨i, hi, he⟩ := List.mem_map.mp hmem
    exact nthName_ne_source source i he
  · have := congrArg List.length hkeys
    simpa using this
  · intro p hp
    obtain ⟨h1, h2⟩ := generateILoop_erase source bd bm bid bch hbm (List.range n) c0
    constructor
    · have hm : (p.1, eraseI p.2.1) ∈ (List.range n).map
          (fun i => (nthName source i, eraseI bd)) := by
        rw [← h1]
        exact List.mem_map_of_mem _ hp
      obtain ⟨i, hi, he⟩ := List.mem_map.mp hm
      have hsnd : eraseI bd = eraseI p.2.1 := congrArg Prod.snd he
      exact hsnd.symm
    · have hm : (p.1, eraseI p.2.2) ∈ (List.range n).map
          (fun i => (nthName source i,
            Value.dict (updateA (eraseE bch) "source"
              (Value.str (nthName source i))))) := by
        rw [← h2]
        exact List.mem_map_of_mem _ hp
      obtain ⟨i, hi, he⟩ := List.mem_map.mp hm
      have hfst : nthName source i = p.1 := congrArg Prod.fst he
      have hsnd : Value.dict (updateA (eraseE bch) "source"
          (Value.str (nthName source i))) = eraseI p.2.2 := congrArg Prod.snd he
      rw [← hsnd, hfst]
  · refine List.Pairwise.imp ?_ (generateILoop_disjoint source bd bm (List.range n) c0)
    intro p q hpq tgt nv
    constructor
    · intro htgt
      have hnq := hpq tgt htgt
      constructor
      · exact mutateI_not_mem q.2.1 tgt nv
          (fun hm => hnq (List.mem_append.mpr (Or.inl hm)))
      · exact mutateI_not_mem q.2.2 tgt nv
          (fun hm => hnq (List.mem_append.mpr (Or.inr hm)))
    · intro htgt
      have hnp : tgt ∉ idsI p.2.1 ++ idsI p.2.2 := fun hm => hpq tgt hm htgt
      constructor
      · exact mutateI_not_mem p.2.1 tgt nv
          (fun hm => hnp (List.mem_append.mpr (Or.inl hm)))
      · exact mutateI_not_mem p.2.2 tgt nv
          (fun hm => hnp (List.mem_append.mpr (Or.inr hm)))

/-- C4 witness: two deep copies of a tiny base train. -/
theorem C4_multi_source_deepcopy_witness :
    ((1 : Nat) < 2 ∧ bm0 = IVal.node 2 bch0) ∧
    ((generateI "S" 2 bd0 bm0 10).1.map Prod.fst
        = (List.range 2).map (nthName "S") ∧
    ((generateI "S" 2 bd0 bm0 10).1.map Prod.fst).Nodup ∧
    "S" ∉ (generateI "S" 2 bd0 bm0 10).1.map Prod.fst ∧
    (generateI "S" 2 bd0 bm0 10).1.length = 2 ∧
    (∀ p ∈ (generateI "S" 2 bd0 bm0 10).1,
      eraseI p.2.1 = eraseI bd0 ∧
      eraseI p.2.2 = Value.dict (updateA (eraseE bch0) "source" (Value.str p.1))) ∧
    List.Pairwise (fun p q => ∀ tgt nv,
      (tgt ∈ idsI p.2.1 ++ idsI p.2.2 →
        mutateI q.2.1 tgt nv = q.2.1 ∧ mutateI q.2.2 tgt nv = q.2.2) ∧
      (tgt ∈ idsI q.2.1 ++ idsI q.2.2 →
        mutateI p.2.1 tgt nv = p.2.1 ∧ mutateI p.2.2 tgt nv = p.2.2))
      (generateI "S" 2 bd0 bm0 10).1) :=
  ⟨⟨by decide, rfl⟩, C4_multi_source_deepcopy "S" 2 bd0 bm0 2 bch0 10 (by decide) rfl⟩

theorem string_eq_of_data (a b : String) (h : a.data = b.data) : a = b := by
  cases a with
  | mk da =>
    cases b with
    | mk db =>
      have h' : da = db := h
      rw [h']

theorem isMetaKey_pref (k : String) : isMetaKey ("metadata." ++ k) = true := by
  show (("metadata." ++ k).data.take 9 == "metadata.".data) = true
  rw [String.data_append, List.take_left' (by rfl)]
  simp

theorem stripMetaKey_pref (k : String) : stripMetaKey ("metadata." ++ k) = k := by
  apply string_eq_of_data
  show ("metadata." ++ k).data.drop 9 = k.data
  rw [String.data_append]
  exact List.drop_left' (by rfl)

theorem metaKey_reconstruct (k : String) (h : isMetaKey k = true) :
    "metadata." ++ stripMetaKey k = k := by
  apply string_eq_of_data
  simp only [stripMetaKey, String.data_append]
  have h9 : k.data.take 9 = "metadata.".data := by
    simpa [isMetaKey] using h
  calc "metadata.".data ++ k.data.drop 9
      = k.data.take 9 ++ k.data.drop 9 := by rw [h9]
    _ = k.data := List.take_append_drop 9 k.data

theorem shapeOfVal_shapeVal (sh : List Nat) : shapeOfVal (shapeVal sh) = some sh := by
  simp only [shapeVal, shapeOfVal]
  induction sh with
  | nil => rfl
  | cons n rest ih =>
    rw [List.map_cons]
    simp only [natsOfVals]
    have h1 : natOfVal (.int (Int.ofNat n)) = some n := by
      simp [natOfVal]
    rw [h1, ih]

theorem lookupA_mem {α : Type} (l : List (String × α)) (s : String) (v : α)
    (h : lookupA l s = some v) : (s, v) ∈ l := by
  induction l with
  | nil => simp [lookupA] at h
  | cons p rest ih =>
    obtain ⟨k, w⟩ := p
    by_cases he : k = s
    · subst he
      have hw : lookupA ((k, w) :: rest) k = some w := by simp [lookupA]
      rw [hw] at h
      injection h with h
      subst h
      exact List.mem_cons_self _ _
    · simp only [lookupA, if_neg he] at h
      exact List.mem_cons_of_mem _ (ih h)

theorem lookupA_map_entry {α β : Type} (l : List (String × α)) (f : String × α → β)
    (s : String) :
    lookupA (l.map (fun p => (p.1, f p))) s = (lookupA l s).map (fun v => f (s, v)) := by
  induction l with
  | nil => rfl
  | cons p rest ih =>
    obtain ⟨k, v⟩ := p
    by_cases he : k = s
    · subst he
      simp [lookupA]
    · simp [lookupA, he, ih]

theorem lookupA_map_keyfun {α β : Type} (l : List (String × α)) (g : String → β)
    (s : String) :
    lookupA (l.map (fun p => (p.1, g p.1))) s
      = if s ∈ keysOf l then some (g s) else none := by
  induction l with
  | nil => rfl
  | cons p rest ih =>
    obtain ⟨k, v⟩ := p
    by_cases he : k = s
    · subst he
      simp [lookupA, keysOf]
    · have hns : (s ∈ keysOf ((k, v) :: rest)) ↔ (s ∈ keysOf rest) := by
        show s ∈ k :: keysOf rest ↔ _
        rw [List.mem_cons]
        constructor
        · intro h1
          rcases h1 with h1 | h1
          · exact absurd h1.symm he
          · exact h1
        · exact Or.inr
      simp only [List.map_cons, lookupA, if_neg he, ih]
      rw [if_congr hns rfl rfl]

theorem attachArr_append (recs : List (String × Dict × Dict)) (src path : String)
    (v : Value) (d m : Dict) (h : src ∉ keysOf recs) :
    attachArr (recs ++ [(src, d, m)]) src path v
      = some (recs ++ [(src, d ++ [(path, v)], m)]) := by
  induction recs with
  | nil => simp [attachArr]
  | cons r rest ih =>
    obtain ⟨s, dd, mm⟩ := r
    have hne : s ≠ src := fun he => h (by simp [keysOf, he])
    have h' : src ∉ keysOf rest := fun hm => h (List.mem_cons_of_mem _ hm)
    simp [attachArr, hne, ih h']

theorem decodeLoop_arrParts (src : String) (props : Dict) (rest : List MsgPart)
    (recs : List (String × Dict × Dict)) (d m : Dict)
    (hsrc : src ∉ keysOf recs) :
    decodeLoop (arrParts src props ++ rest) (recs ++ [(src, d, m)])
      = decodeLoop rest (recs ++ [(src, d ++ props.filter (fun q => isArrV q.2), m)]) := by
  induction props generalizing d with
  | nil => simp [arrParts]
  | cons q rest' ih =>
    obtain ⟨path, v⟩ := q
    cases v
    case arr dt sh el =>
      simp only [arrParts, List.cons_append]
      rw [show decodeLoop
          (MsgPart.ser (.dict [("source", .str src), ("content", .str "array"),
              ("path", .str path), ("dtype", .str dt), ("shape", shapeVal sh)])
            :: MsgPart.raw el :: (arrParts src rest' ++ rest))
          (recs ++ [(src, d, m)])
        = (match attachArr (recs ++ [(src, d, m)]) src path (.arr dt sh el) with
           | none => Except.error "MalformedMessage"
           | some recs' => decodeLoop (arrParts src rest' ++ rest) recs') from by
        simp [decodeLoop, lookupA, shapeOfVal_shapeVal]]
      rw [attachArr_append recs src path (Value.arr dt sh el) d m hsrc]
      show decodeLoop (arrParts src rest' ++ rest)
          (recs ++ [(src, d ++ [(path, Value.arr dt sh el)], m)]) = _
      rw [ih]
      simp [List.filter_cons, isArrV, List.append_assoc]
    all_goals simp [arrParts, List.filter_cons, isArrV, ih]

theorem decodeLoop_hdr_md (h payload : Dict) (c src : String) (md : Dict)
    (rest : List MsgPart) (recs : List (String × Dict × Dict))
    (hs : lookupA h "source" = some (.str src))
    (hc : lookupA h "content" = some (.str c))
    (hcne : c ≠ "array")
    (hmd : lookupA h "metadata" = some (.dict md)) :
    decodeLoop (.ser (.dict h) :: .ser (.dict payload) :: rest) recs
      = decodeLoop rest (recs ++ [(src, payload, md)]) := by
  simp [decodeLoop, hs, hc, hcne, hmd]

theorem decodeLoop_hdr_nomd (h payload : Dict) (c src : String)
    (rest : List MsgPart) (recs : List (String × Dict × Dict))
    (hs : lookupA h "source" = some (.str src))
    (hc : lookupA h "content" = some (.str c))
    (hcne : c ≠ "array")
    (hmd : lookupA h "metadata" = none) :
    decodeLoop (.ser (.dict h) :: .ser (.dict payload) :: rest) recs
      = decodeLoop rest (recs ++ [(src, payload, [])]) := by
  simp [decodeLoop, hs, hc, hcne, hmd]

theorem decodeLoop_segment (ser vers src : String) (props md : Dict)
    (rest : List MsgPart) (recs : List (String × Dict × Dict))
    (hser : ser ≠ "array") (hsrc : src ∉ keysOf recs) :
    decodeLoop (srcSegment ser vers src props md ++ rest) recs
      = decodeLoop rest (recs ++ [(src,
          props.filter (fun q => !(isArrV q.2)) ++ props.filter (fun q => isArrV q.2),
          if vers = "2.2" then md else [])]) := by
  by_cases hv : vers = "2.2"
  · rw [show srcSegment ser vers src props md
        = .ser (.dict [("source", .str src), ("content", .str ser),
            ("metadata", .dict md)])
          :: .ser (.dict (props.filter (fun q => !(isArrV q.2))))
          :: arrParts src props from by simp [srcSegment, hv]]
    rw [List.cons_append, List.cons_append]
    rw [decodeLoop_hdr_md _ _ ser src md _ recs (by simp [lookupA])
      (by simp [lookupA]) hser (by simp [lookupA])]
    rw [decodeLoop_arrParts src props rest recs _ md hsrc]
    rw [if_pos hv]
  · rw [show srcSegment ser vers src props md
        = .ser (.dict [("source", .str src), ("content", .str ser)])
          :: .ser (.dict (props.filter (fun q => !(isArrV q.2))))
          :: arrParts src props from by simp [srcSegment, hv]]
    rw [List.cons_append, List.cons_append]
    rw [decodeLoop_hdr_nomd _ _ ser src _ recs (by simp [lookupA])
      (by simp [lookupA]) hser (by simp [lookupA])]
    rw [decodeLoop_arrParts src props rest recs _ [] hsrc]
    rw [if_neg hv]

theorem decodeLoop_msg (ser vers : String) (meta : SrcMap) :
    ∀ (data : SrcMap) (recs : List (String × Dict × Dict)),
      (∀ s ∈ keysOf data, s ∉ keysOf recs) → (keysOf data).Nodup → ser ≠ "array" →
      decodeLoop (data.flatMap (fun p =>
          srcSegment ser vers p.1 p.2 ((lookupA meta p.1).getD []))) recs
        = .ok (recs ++ data.map (fun p => (p.1,
            p.2.filter (fun q => !(isArrV q.2)) ++ p.2.filter (fun q => isArrV q.2),
            if vers = "2.2" then (lookupA meta p.1).getD [] else []))) := by
  intro data
  induction data with
  | nil =>
    intro recs _ _ _
    simp [decodeLoop]
  | cons p data' ih =>
    intro recs hfresh hnd hser
    obtain ⟨src, props⟩ := p
    have hnd0 := List.nodup_cons.mp (show (src :: keysOf data').Nodup from hnd)
    rw [List.flatMap_cons]
    rw [decodeLoop_segment ser vers src props _ _ recs hser
      (hfresh src (List.mem_cons_self src _))]
    rw [ih (recs ++ [(src, props.filter (fun q => !(isArrV q.2))
          ++ props.filter (fun q => isArrV q.2),
        if vers = "2.2" then (lookupA meta src).getD [] else [])])
      (by
        intro s hs
        intro hmem
        rw [show keysOf (recs ++ [(src,
            props.filter (fun q => !(isArrV q.2)) ++ props.filter (fun q => isArrV q.2),
            if vers = "2.2" then (lookupA meta src).getD [] else [])])
          = keysOf recs ++ [src] from by simp [keysOf]] at hmem
        rcases List.mem_append.mp hmem with hm | hm
        · exact hfresh s (List.mem_cons_of_mem _ hs) hm
        · rw [List.mem_singleton] at hm
          exact hnd0.1 (hm ▸ hs))
      hnd0.2 hser]
    rw [List.map_cons, List.append_assoc, List.singleton_append]

theorem updAll_append (d m : Dict) (hfresh : ∀ k ∈ keysOf m, k ∉ keysOf d)
    (hnd : (keysOf m).Nodup) : updAll d m = d ++ m := by
  induction m generalizing d with
  | nil => simp [updAll]
  | cons q rest ih =>
    obtain ⟨k, v⟩ := q
    have hnd0 := List.nodup_cons.mp (show (k :: keysOf rest).Nodup from hnd)
    rw [updAll, updateA_append_of_not_mem d k v
      (hfresh k (List.mem_cons_self k _))]
    rw [ih (d ++ [(k, v)]) (by
      intro k2 hk2 hmem
      rw [show keysOf (d ++ [(k, v)]) = keysOf d ++ [k] from by simp [keysOf]] at hmem
      rcases List.mem_append.mp hmem with hm | hm
      · exact hfresh k2 (List.mem_cons_of_mem _ hk2) hm
      · rw [List.mem_singleton] at hm
        exact hnd0.1 (hm ▸ hk2)) hnd0.2]
    simp

theorem keysOf_prefKeys (md : Dict) :
    keysOf (prefKeys md) = (keysOf md).map (fun k => "metadata." ++ k) := by
  simp [keysOf, prefKeys, List.map_map]

theorem prefKeys_meta (md : Dict) : ∀ k ∈ keysOf (prefKeys md), isMetaKey k = true := by
  intro k hk
  rw [keysOf_prefKeys] at hk
  obtain ⟨k0, _, he⟩ := List.mem_map.mp hk
  rw [← he]
  exact isMetaKey_pref k0

theorem prefKeys_nodup (md : Dict) (hnd : (keysOf md).Nodup) :
    (keysOf (prefKeys md)).Nodup := by
  rw [keysOf_prefKeys]
  exact hnd.map (fun a b h => by
    have := congrArg stripMetaKey h
    rwa [stripMetaKey_pref, stripMetaKey_pref] at this)

theorem lookupA_prefKeys (md : Dict) (k : String) :
    lookupA (prefKeys md) ("metadata." ++ k) = lookupA md k := by
  induction md with
  | nil => rfl
  | cons q rest ih =>
    obtain ⟨k0, v⟩ := q
    by_cases he : k0 = k
    · subst he
      simp [prefKeys, lookupA]
    · have hne : "metadata." ++ k0 ≠ "metadata." ++ k := by
        intro hh
        have := congrArg stripMetaKey hh
        rw [stripMetaKey_pref, stripMetaKey_pref] at this
        exact he this
      simp [prefKeys, lookupA, hne, he] at ih ⊢
      exact ih

theorem lookupA_prefKeys_nonmeta (md : Dict) (k : String) (h : isMetaKey k = false) :
    lookupA (prefKeys md) k = none := by
  rw [lookupA_eq_none_iff]
  intro hmem
  have := prefKeys_meta md k hmem
  rw [h] at this
  exact Bool.noConfusion this

theorem mergeMeta21_lookup : ∀ (meta data : SrcMap),
    (keysOf meta).Nodup → (∀ k ∈ keysOf meta, k ∈ keysOf data) →
    ∃ d1, mergeMeta21 data meta = .ok d1 ∧ keysOf d1 = keysOf data ∧
      (∀ s ∈ keysOf meta, lookupA d1 s = (lookupA data s).map
        (fun props => updAll props (prefKeys ((lookupA meta s).getD [])))) ∧
      (∀ s, s ∉ keysOf meta → lookupA d1 s = lookupA data s) := by
  intro meta
  induction meta with
  | nil =>
    intro data _ _
    exact ⟨data, rfl, rfl, fun s hs => by simp [keysOf] at hs, fun s _ => rfl⟩
  | cons p rest ih =>
    intro data hnd hkeys
    obtain ⟨key, value⟩ := p
    have hnd0 := List.nodup_cons.mp (show (key :: keysOf rest).Nodup from hnd)
    have hmem : key ∈ keysOf data := hkeys key (List.mem_cons_self key _)
    obtain ⟨props, hp⟩ := Option.isSome_iff_exists.mp
      (lookupA_isSome_of_mem data key hmem)
    have hk' : keysOf (updateA data key (updAll props (prefKeys value)))
        = keysOf data := keysOf_updateA_mem data key _ hmem
    obtain ⟨d1, hd1, hkd, hin, hout⟩ := ih
      (updateA data key (updAll props (prefKeys value))) hnd0.2
      (fun k hk => by
        rw [hk']
        exact hkeys k (List.mem_cons_of_mem _ hk))
    refine ⟨d1, ?_, hkd.trans hk', ?_, ?_⟩
    · rw [mergeMeta21, hp]
      exact hd1
    · intro s hs
      rcases List.mem_cons.mp hs with he | hs'
      · subst he
        rw [hout s hnd0.1, lookupA_updateA_self, hp]
        rw [show lookupA ((s, value) :: rest) s = some value from by simp [lookupA]]
        rfl
      · have hsk : s ≠ key := fun he => hnd0.1 (he ▸ hs')
        rw [hin s hs', lookupA_updateA_ne _ _ _ _ hsk]
        rw [show lookupA ((key, value) :: rest) s = lookupA rest s from by
          simp only [lookupA]
          rw [if_neg (fun hh => hsk hh.symm)]]
    · intro s hs
      have hs1 : s ≠ key ∧ s ∉ keysOf rest := by
        rw [show (s ∉ keysOf ((key, value) :: rest)) = (s ∉ key :: keysOf rest) from rfl,
          List.mem_cons] at hs
        push_neg at hs
        exact hs
      rw [hout s hs1.2, lookupA_updateA_ne _ _ _ _ hs1.1]

theorem mergeMeta10_lookup : ∀ (meta data : SrcMap),
    (keysOf meta).Nodup → (∀ k ∈ keysOf meta, k ∈ keysOf data) →
    ∃ d1, mergeMeta10 data meta = .ok d1 ∧ keysOf d1 = keysOf data ∧
      (∀ s ∈ keysOf meta, lookupA d1 s = (lookupA data s).map
        (fun props => updateA props "metadata"
          (.dict ((lookupA meta s).getD [])))) ∧
      (∀ s, s ∉ keysOf meta → lookupA d1 s = lookupA data s) := by
  intro meta
  induction meta with
  | nil =>
    intro data _ _
    exact ⟨data, rfl, rfl, fun s hs => by simp [keysOf] at hs, fun s _ => rfl⟩
  | cons p rest ih =>
    intro data hnd hkeys
    obtain ⟨key, value⟩ := p
    have hnd0 := List.nodup_cons.mp (show (key :: keysOf rest).Nodup from hnd)
    have hmem : key ∈ keysOf data := hkeys key (List.mem_cons_self key _)
    obtain ⟨props, hp⟩ := Option.isSome_iff_exists.mp
      (lookupA_isSome_of_mem data key hmem)
    have hk' : keysOf (updateA data key (updateA props "metadata" (.dict value)))
        = keysOf data := keysOf_updateA_mem data key _ hmem
    obtain ⟨d1, hd1, hkd, hin, hout⟩ := ih
      (updateA data key (updateA props "metadata" (.dict value))) hnd0.2
      (fun k hk => by
        rw [hk']
        exact hkeys k (List.mem_cons_of_mem _ hk))
    refine ⟨d1, ?_, hkd.trans hk', ?_, ?_⟩
    · rw [mergeMeta10, hp]
      exact hd1
    · intro s hs
      rcases List.mem_cons.mp hs with he | hs'
      · subst he
        rw [hout s hnd0.1, lookupA_updateA_self, hp]
        rw [show lookupA ((s, value) :: rest) s = some value from by simp [lookupA]]
        rfl
      · have hsk : s ≠ key := fun he => hnd0.1 (he ▸ hs')
        rw [hin s hs', lookupA_updateA_ne _ _ _ _ hsk]
        rw [show lookupA ((key, value) :: rest) s = lookupA rest s from by
          simp only [lookupA]
          rw [if_neg (fun hh => hsk hh.symm)]]
    · intro s hs
      have hs1 : s ≠ key ∧ s ∉ keysOf rest := by
        rw [show (s ∉ keysOf ((key, value) :: rest)) = (s ∉ key :: keysOf rest) from rfl,
          List.mem_cons] at hs
        push_neg at hs
        exact hs
      rw [hout s hs1.2, lookupA_updateA_ne _ _ _ _ hs1.1]

theorem filter_not_not (l : Dict) :
    l.filter (fun q => !(!(isArrV q.2))) = l.filter (fun q => isArrV q.2) := by
  apply List.filter_congr
  intro x _
  simp

theorem keysOf_append {α : Type} (a b : List (String × α)) :
    keysOf (a ++ b) = keysOf a ++ keysOf b := by
  simp [keysOf]

theorem lookupA_strip_map (l : Dict) (hall : ∀ q ∈ l, isMetaKey q.1 = true)
    (k : String) :
    lookupA (l.map (fun q => (stripMetaKey q.1, q.2))) k
      = lookupA l ("metadata." ++ k) := by
  induction l with
  | nil => rfl
  | cons q rest ih =>
    obtain ⟨k0, v⟩ := q
    have hk0 : isMetaKey k0 = true := hall (k0, v) (List.mem_cons_self _ _)
    have hrec : "metadata." ++ stripMetaKey k0 = k0 := metaKey_reconstruct k0 hk0
    have ih' := ih (fun q hq => hall q (List.mem_cons_of_mem _ hq))
    by_cases he : stripMetaKey k0 = k
    · have hk0e : k0 = "metadata." ++ k := by rw [← hrec, he]
      simp [lookupA, he, hk0e, stripMetaKey_pref]
    · have hk0e : k0 ≠ "metadata." ++ k := by
        intro hh
        exact he (by rw [hh, stripMetaKey_pref])
      simp [lookupA, he, hk0e, ih']

theorem dictsOf_map (l : SrcMap) :
    dictsOf (l.map (fun p => (p.1, Value.dict p.2))) = some l := by
  induction l with
  | nil => rfl
  | cons p rest ih =>
    simp only [List.map_cons, dictsOf, dictOfVal, ih]

theorem decode10_of_srcMap (l : SrcMap) :
    decode10 [.ser (srcMapValue l)]
      = .ok (l, l.map (fun p => (p.1, metaOfProps p.2))) := by
  simp only [decode10, srcMapValue, dictsOf_map]

theorem metaOfProps_updateA (props : Dict) (mdv : Dict) :
    metaOfProps (updateA props "metadata" (.dict mdv)) = mdv := by
  simp [metaOfProps, lookupA_updateA_self]

theorem dictEq_refl (d : Dict) : dictEq d d := fun _ => rfl

theorem lookupA_filter_key_pos {α : Type} (l : List (String × α))
    (p : String × α → Bool) (k : String) (h : ∀ v, p (k, v) = true) :
    lookupA (l.filter p) k = lookupA l k := by
  induction l with
  | nil => rfl
  | cons q rest ih =>
    obtain ⟨k0, w⟩ := q
    by_cases he : k0 = k
    · subst he
      rw [List.filter_cons, h w]
      simp [lookupA]
    · rw [List.filter_cons]
      cases hp : p (k0, w) with
      | true => simp [lookupA, he, ih]
      | false => simp [lookupA, he, ih]

theorem lookupA_filter_key_neg {α : Type} (l : List (String × α))
    (p : String × α → Bool) (k : String) (h : ∀ v, p (k, v) = false) :
    lookupA (l.filter p) k = none := by
  induction l with
  | nil => rfl
  | cons q rest ih =>
    obtain ⟨k0, w⟩ := q
    by_cases he : k0 = k
    · subst he
      rw [List.filter_cons, h w]
      simpa using ih
    · rw [List.filter_cons]
      cases hp : p (k0, w) with
      | true => simp [lookupA, he, ih]
      | false => simp [lookupA, he, ih]

theorem dictEq_filterpair (props : Dict) (hnd : (keysOf props).Nodup) :
    dictEq (props.filter (fun q => !(isArrV q.2)) ++ props.filter (fun q => isArrV q.2))
      props := by
  intro k
  rw [← filter_not_not props]
  exact lookupA_filter_split props (fun q => !(isArrV q.2)) hnd k

theorem merged21_roundtrip (props mdv : Dict)
    (hpnd : (keysOf props).Nodup)
    (hpk : ∀ q ∈ props, isMetaKey q.1 = false)
    (hmnd : (keysOf mdv).Nodup) :
    dictEq (((updAll props (prefKeys mdv)).filter (fun q => !(isArrV q.2))
        ++ (updAll props (prefKeys mdv)).filter (fun q => isArrV q.2)).filter
        (fun q => !(isMetaKey q.1))) props ∧
    dictEq ((((updAll props (prefKeys mdv)).filter (fun q => !(isArrV q.2))
        ++ (updAll props (prefKeys mdv)).filter (fun q => isArrV q.2)).filter
        (fun q => isMetaKey q.1)).map (fun q => (stripMetaKey q.1, q.2))) mdv := by
  have hfresh : ∀ k ∈ keysOf (prefKeys mdv), k ∉ keysOf props := by
    intro k hk hmem
    obtain ⟨q, hq, he⟩ := List.mem_map.mp hmem
    have hf := hpk q hq
    rw [he] at hf
    have ht := prefKeys_meta mdv k hk
    rw [hf] at ht
    exact Bool.noConfusion ht
  have hX : updAll props (prefKeys mdv) = props ++ prefKeys mdv :=
    updAll_append props _ hfresh (prefKeys_nodup mdv hmnd)
  have hXnd : (keysOf (props ++ prefKeys mdv)).Nodup := by
    rw [keysOf_append]
    refine List.Nodup.append hpnd (prefKeys_nodup mdv hmnd) ?_
    intro k hk1 hk2
    exact hfresh k hk2 hk1
  have hYX : ∀ k, lookupA ((props ++ prefKeys mdv).filter (fun q => !(isArrV q.2))
      ++ (props ++ prefKeys mdv).filter (fun q => isArrV q.2)) k
      = lookupA (props ++ prefKeys mdv) k :=
    dictEq_filterpair (props ++ prefKeys mdv) hXnd
  have hpnone : ∀ k, isMetaKey k = true → lookupA props k = none := by
    intro k hmk
    rw [lookupA_eq_none_iff]
    intro hmem
    obtain ⟨q, hq, he⟩ := List.mem_map.mp hmem
    have hf := hpk q hq
    rw [he, hmk] at hf
    exact Bool.noConfusion hf
  rw [hX]
  constructor
  · intro k
    by_cases hmk : isMetaKey k = true
    · rw [lookupA_filter_key_neg _ _ k (by intro v; simp [hmk])]
      rw [hpnone k hmk]
    · rw [lookupA_filter_key_pos _ _ k (by
        intro v
        simp only [Bool.not_eq_true] at hmk
        simp [hmk])]
      rw [hYX k, lookupA_append]
      cases hl : lookupA props k with
      | some v => rfl
      | none =>
        rw [lookupA_prefKeys_nonmeta mdv k (by
          simp only [Bool.not_eq_true] at hmk
          exact hmk)]
  · intro k
    rw [lookupA_strip_map _ (by
      intro q hq
      exact (List.mem_filter.mp hq).2) k]
    rw [lookupA_filter_key_pos _ _ ("metadata." ++ k) (by
      intro v
      simp [isMetaKey_pref])]
    rw [hYX _, lookupA_append, hpnone _ (isMetaKey_pref k), lookupA_prefKeys]

theorem odictEq_of_eq (a b : Option Dict) (h : a = b) : odictEq a b := by
  subst h
  cases a with
  | none => exact True.intro
  | some d => exact dictEq_refl d

theorem roundtrip10 (data meta : SrcMap) (ser : String)
    (hkeys : keysOf data = keysOf meta)
    (hnd : (keysOf data).Nodup) :
    ∃ r t, containize (data, meta) ser "1.0" = .ok r
      ∧ decodeTrain "1.0" r.1 = .ok t
      ∧ smapEq t.2 meta ∧ smapEq t.1 (dataWithMeta data meta) := by
  have hndm : (keysOf meta).Nodup := hkeys ▸ hnd
  have hsubm : ∀ k ∈ keysOf meta, k ∈ keysOf data := by
    intro k hk
    rw [hkeys]
    exact hk
  obtain ⟨d1, hd1, hkd, hin, hout⟩ := mergeMeta10_lookup meta data hndm hsubm
  have hall10 : ∀ s, lookupA d1 s = (lookupA data s).map
      (fun props => updateA props "metadata" (.dict ((lookupA meta s).getD []))) := by
    intro s
    by_cases hs : s ∈ keysOf meta
    · exact hin s hs
    · rw [hout s hs]
      have hnone : lookupA data s = none := by
        rw [lookupA_eq_none_iff, hkeys]
        exact hs
      rw [hnone]
      rfl
  refine ⟨([.ser (srcMapValue d1)], d1, meta),
    (d1, d1.map (fun p => (p.1, metaOfProps p.2))), ?_, ?_, ?_, ?_⟩
  · simp [containize, hd1]
  · simp [decodeTrain, decode10_of_srcMap]
  · intro s
    rw [lookupA_map_entry, hall10 s]
    cases hls : lookupA data s with
    | none =>
      have hnot : s ∉ keysOf data := (lookupA_eq_none_iff data s).mp hls
      rw [hkeys] at hnot
      rw [(lookupA_eq_none_iff meta s).mpr hnot]
      exact True.intro
    | some props =>
      have hmemd : (s, props) ∈ data := lookupA_mem data s props hls
      have hsk : s ∈ keysOf data := List.mem_map.mpr ⟨(s, props), hmemd, rfl⟩
      rw [hkeys] at hsk
      obtain ⟨mdv, hmm⟩ := Option.isSome_iff_exists.mp (lookupA_isSome_of_mem meta s hsk)
      rw [hmm]
      show dictEq (metaOfProps (updateA props "metadata" (.dict mdv))) mdv
      rw [metaOfProps_updateA]
      exact dictEq_refl mdv
  · intro s
    rw [dataWithMeta, lookupA_map_entry, hall10 s]
    exact odictEq_of_eq _ _ rfl

theorem roundtrip22 (data meta : SrcMap) (ser : String) (hser : ser ≠ "array")
    (hkeys : keysOf data = keysOf meta)
    (hnd : (keysOf data).Nodup)
    (hprops : ∀ p ∈ data, (keysOf p.2).Nodup) :
    ∃ r t, containize (data, meta) ser "2.2" = .ok r
      ∧ decodeTrain "2.2" r.1 = .ok t ∧ trainEq t (data, meta) := by
  have hb := buildMsg_ok ser "2.2" meta data (by
    intro s hs
    rw [← hkeys]
    exact hs)
  have hloop := decodeLoop_msg ser "2.2" meta data []
    (by
      intro s _ hmem
      simp [keysOf] at hmem)
    hnd hser
  refine ⟨(data.flatMap (fun p =>
      srcSegment ser "2.2" p.1 p.2 ((lookupA meta p.1).getD [])),
    stripArrays data, meta),
    ((data.map (fun p => (p.1,
        p.2.filter (fun q => !(isArrV q.2)) ++ p.2.filter (fun q => isArrV q.2),
        (lookupA meta p.1).getD []))).map (fun r => (r.1, r.2.1)),
     (data.map (fun p => (p.1,
        p.2.filter (fun q => !(isArrV q.2)) ++ p.2.filter (fun q => isArrV q.2),
        (lookupA meta p.1).getD []))).map (fun r => (r.1, r.2.2))), ?_, ?_, ?_, ?_⟩
  · simp [containize, hb]
  · simp [decodeTrain, hloop]
  · intro s
    rw [lookupA_map_entry, lookupA_map_entry]
    cases hls : lookupA data s with
    | none => exact True.intro
    | some props =>
      have hmemd : (s, props) ∈ data := lookupA_mem data s props hls
      exact dictEq_filterpair props (hprops (s, props) hmemd)
  · intro s
    rw [lookupA_map_entry, lookupA_map_entry]
    cases hls : lookupA data s with
    | none =>
      have hnot : s ∉ keysOf data := (lookupA_eq_none_iff data s).mp hls
      rw [hkeys] at hnot
      rw [(lookupA_eq_none_iff meta s).mpr hnot]
      exact True.intro
    | some props =>
      have hmemd : (s, props) ∈ data := lookupA_mem data s props hls
      have hsk : s ∈ keysOf data := List.mem_map.mpr ⟨(s, props), hmemd, rfl⟩
      rw [hkeys] at hsk
      obtain ⟨mdv, hmm⟩ := Option.isSome_iff_exists.mp (lookupA_isSome_of_mem meta s hsk)
      rw [hmm]
      show dictEq ((lookupA meta s).getD []) mdv
      rw [hmm]
      exact dictEq_refl mdv

theorem roundtrip21 (data meta : SrcMap) (ser : String) (hser : ser ≠ "array")
    (hkeys : keysOf data = keysOf meta)
    (hnd : (keysOf data).Nodup)
    (hprops : ∀ p ∈ data, (keysOf p.2).Nodup ∧ ∀ q ∈ p.2, isMetaKey q.1 = false)
    (hmeta : ∀ p ∈ meta, (keysOf p.2).Nodup) :
    ∃ r t, containize (data, meta) ser "2.1" = .ok r
      ∧ decodeTrain "2.1" r.1 = .ok t ∧ trainEq t (data, meta) := by
  have hndm : (keysOf meta).Nodup := hkeys ▸ hnd
  have hsubm : ∀ k ∈ keysOf meta, k ∈ keysOf data := by
    intro k hk
    rw [hkeys]
    exact hk
  obtain ⟨d1, hd1, hkd, hin, hout⟩ := mergeMeta21_lookup meta data hndm hsubm
  have hall : ∀ s, lookupA d1 s = (lookupA data s).map
      (fun props => updAll props (prefKeys ((lookupA meta s).getD []))) := by
    intro s
    by_cases hs : s ∈ keysOf meta
    · exact hin s hs
    · rw [hout s hs]
      have hnone : lookupA data s = none := by
        rw [lookupA_eq_none_iff, hkeys]
        exact hs
      rw [hnone]
      rfl
  have hb := buildMsg_ok ser "2.1" meta d1 (by
    intro s hs
    rw [← hkeys, ← hkd]
    exact hs)
  have hloop := decodeLoop_msg ser "2.1" meta d1 []
    (by
      intro s _ hmem
      simp [keysOf] at hmem)
    (by rw [hkd]; exact hnd) hser
  refine ⟨(d1.flatMap (fun p =>
      srcSegment ser "2.1" p.1 p.2 ((lookupA meta p.1).getD [])),
    stripArrays d1, meta),
    ((d1.map (fun p => (p.1,
        p.2.filter (fun q => !(isArrV q.2)) ++ p.2.filter (fun q => isArrV q.2),
        ([] : Dict)))).map (fun r => (r.1,
          r.2.1.filter (fun q => !(isMetaKey q.1)))),
     (d1.map (fun p => (p.1,
        p.2.filter (fun q => !(isArrV q.2)) ++ p.2.filter (fun q => isArrV q.2),
        ([] : Dict)))).map (fun r => (r.1,
          (r.2.1.filter (fun q => isMetaKey q.1)).map
            (fun q => (stripMetaKey q.1, q.2))))), ?_, ?_, ?_, ?_⟩
  · simp [containize, hd1, hb]
  · simp [decodeTrain, hloop]
  · intro s
    rw [lookupA_map_entry, lookupA_map_entry, hall s]
    cases hls : lookupA data s with
    | none => exact True.intro
    | some props =>
      have hmemd : (s, props) ∈ data := lookupA_mem data s props hls
      have hsk : s ∈ keysOf data := List.mem_map.mpr ⟨(s, props), hmemd, rfl⟩
      rw [hkeys] at hsk
      obtain ⟨mdv, hmm⟩ := Option.isSome_iff_exists.mp (lookupA_isSome_of_mem meta s hsk)
      show dictEq (((updAll props (prefKeys ((lookupA meta s).getD []))).filter
            (fun q => !(isArrV q.2))
          ++ (updAll props (prefKeys ((lookupA meta s).getD []))).filter
            (fun q => isArrV q.2)).filter (fun q => !(isMetaKey q.1))) props
      rw [hmm]
      exact (merged21_roundtrip props mdv (hprops (s, props) hmemd).1
        (hprops (s, props) hmemd).2
        (hmeta (s, mdv) (lookupA_mem meta s mdv hmm))).1
  · intro s
    rw [lookupA_map_entry, lookupA_map_entry, hall s]
    cases hls : lookupA data s with
    | none =>
      have hnot : s ∉ keysOf data := (lookupA_eq_none_iff data s).mp hls
      rw [hkeys] at hnot
      rw [(lookupA_eq_none_iff meta s).mpr hnot]
      exact True.intro
    | some props =>
      have hmemd : (s, props) ∈ data := lookupA_mem data s props hls
      have hsk : s ∈ keysOf data := List.mem_map.mpr ⟨(s, props), hmemd, rfl⟩
      rw [hkeys] at hsk
      obtain ⟨mdv, hmm⟩ := Option.isSome_iff_exists.mp (lookupA_isSome_of_mem meta s hsk)
      rw [hmm]
      exact (merged21_roundtrip props mdv (hprops (s, props) hmemd).1
        (hprops (s, props) hmemd).2
        (hmeta (s, mdv) (lookupA_mem meta s mdv hmm))).2

/-- C1: the round-trip law `decode(encode(t, v), v) == t` as stated holds for
versions 2.1 and 2.2 on well-formed trains (serializer name distinct from the
literal `array`, Data and Metadata carrying the same duplicate-free source
keys, duplicate-free field keys, and no Data field already carrying the
reserved `metadata.` key marker), Python `==` on dicts taken key-wise.  For
version 1.0 it FAILS as stated: encoding merges each source's metadata into
its Data dict under the key `metadata`, and decoding (per the repository's
own protocol-1 test) leaves that key embedded, so the decoded Data equals the
original Data with the metadata dict added under `metadata` (`dataWithMeta`),
not the original Data; the decoded Metadata does equal the original. -/
theorem C1_roundtrip (data meta : SrcMap) (ser : String)
    (hser : ser ≠ "array")
    (hkeys : keysOf data = keysOf meta)
    (hnd : (keysOf data).Nodup)
    (hprops : ∀ p ∈ data, (keysOf p.2).Nodup ∧ ∀ q ∈ p.2, isMetaKey q.1 = false)
    (hmeta : ∀ p ∈ meta, (keysOf p.2).Nodup) :
    (∀ vers, vers = "2.1" ∨ vers = "2.2" →
      ∃ r t, containize (data, meta) ser vers = .ok r
        ∧ decodeTrain vers r.1 = .ok t ∧ trainEq t (data, meta)) ∧
    (∃ r t, containize (data, meta) ser "1.0" = .ok r
      ∧ decodeTrain "1.0" r.1 = .ok t
      ∧ smapEq t.2 meta ∧ smapEq t.1 (dataWithMeta data meta)) := by
  refine ⟨?_, roundtrip10 data meta ser hkeys hnd⟩
  intro vers hv
  rcases hv with hv | hv
  · subst hv
    exact roundtrip21 data meta ser hser hkeys hnd hprops hmeta
  · subst hv
    exact roundtrip22 data meta ser hser hkeys hnd (fun p hp => (hprops p hp).1)

/-- Witness for C1 at a concrete two-field, one-source train. -/
theorem C1_roundtrip_witness :
    (∀ vers, vers = "2.1" ∨ vers = "2.2" →
      ∃ r t, containize (cd0, cm0) "msgpack" vers = .ok r
        ∧ decodeTrain vers r.1 = .ok t ∧ trainEq t (cd0, cm0)) ∧
    (∃ r t, containize (cd0, cm0) "msgpack" "1.0" = .ok r
      ∧ decodeTrain "1.0" r.1 = .ok t
      ∧ smapEq t.2 cm0 ∧ smapEq t.1 (dataWithMeta cd0 cm0)) :=
  C1_roundtrip cd0 cm0 "msgpack" (by decide) rfl (by decide) (by decide) (by decide)

/-- C1 counterexample: at version 1.0 the round trip is NOT the identity on
the example train: the decoded Data dict of source `s` carries the extra
field `metadata` that the original Data did not have. -/
theorem C1_counterexample :
    ¬ trainEq (roundTrip "1.0" cd0 cm0 "msgpack") (cd0, cm0) := by
  intro h
  have h1 := h.1 "s"
  rw [show lookupA (roundTrip "1.0" cd0 cm0 "msgpack").1 "s"
      = some [("a", Value.int 1), ("x", Value.arr "uint16" [2] [3, 4]),
          ("metadata", Value.dict [("source", Value.str "s"),
            ("timestamp.tid", Value.int 5)])] from rfl,
    show lookupA cd0 "s"
      = some [("a", Value.int 1), ("x", Value.arr "uint16" [2] [3, 4])] from rfl] at h1
  have h2 : dictEq [("a", Value.int 1), ("x", Value.arr "uint16" [2] [3, 4]),
      ("metadata", Value.dict [("source", Value.str "s"),
        ("timestamp.tid", Value.int 5)])]
      [("a", Value.int 1), ("x", Value.arr "uint16" [2] [3, 4])] := h1
  have h3 := h2 "metadata"
  rw [show lookupA [("a", Value.int 1), ("x", Value.arr "uint16" [2] [3, 4]),
      ("metadata", Value.dict [("source", Value.str "s"),
        ("timestamp.tid", Value.int 5)])] "metadata"
      = some (Value.dict [("source", Value.str "s"),
          ("timestamp.tid", Value.int 5)]) from rfl,
    show lookupA [("a", Value.int 1), ("x", Value.arr "uint16" [2] [3, 4])] "metadata"
      = none from rfl] at h3
  exact Option.noConfusion h3

/-- C7 (amended): encoding never touches the Metadata map, but it mutates
the Data map in place.  Per version the caller's Data after `containize`
returns is: 1.0 — each source's dict with its metadata dict merged in under
the key `metadata` (no fields popped); 2.0 — the same merge, then every
array-valued field popped out; 2.1 — each metadata entry merged in under a
`metadata.`-marked key, then every array-valued field popped out; 2.2 — the
original dicts with their array-valued fields popped out (`stripArrays`). -/
theorem C7_encode_mutation (data meta : SrcMap) (ser : String)
    (hkeys : keysOf data = keysOf meta)
    (hnd : (keysOf data).Nodup) :
    (∀ vers r, containize (data, meta) ser vers = .ok r → r.2.2 = meta) ∧
    (∃ r, containize (data, meta) ser "1.0" = .ok r ∧
      ∀ s, lookupA r.2.1 s = (lookupA data s).map
        (fun props => updateA props "metadata" (.dict ((lookupA meta s).getD [])))) ∧
    (∃ r, containize (data, meta) ser "2.0" = .ok r ∧
      ∀ s, lookupA r.2.1 s = (lookupA data s).map (fun props =>
        (updateA props "metadata" (.dict ((lookupA meta s).getD []))).filter
          (fun q => !(isArrV q.2)))) ∧
    (∃ r, containize (data, meta) ser "2.1" = .ok r ∧
      ∀ s, lookupA r.2.1 s = (lookupA data s).map (fun props =>
        (updAll props (prefKeys ((lookupA meta s).getD []))).filter
          (fun q => !(isArrV q.2)))) ∧
    (∃ r, containize (data, meta) ser "2.2" = .ok r ∧ r.2.1 = stripArrays data) := by
  have hndm : (keysOf meta).Nodup := hkeys ▸ hnd
  have hsubm : ∀ k ∈ keysOf meta, k ∈ keysOf data := by
    intro k hk
    rw [hkeys]
    exact hk
  obtain ⟨d1, hd1, hkd, hin, hout⟩ := mergeMeta10_lookup meta data hndm hsubm
  have hall10 : ∀ s, lookupA d1 s = (lookupA data s).map
      (fun props => updateA props "metadata" (.dict ((lookupA meta s).getD []))) := by
    intro s
    by_cases hs : s ∈ keysOf meta
    · exact hin s hs
    · rw [hout s hs]
      have hnone : lookupA data s = none := by
        rw [lookupA_eq_none_iff, hkeys]
        exact hs
      rw [hnone]
      rfl
  obtain ⟨d2, hd2, hkd2, hin2, hout2⟩ := mergeMeta21_lookup meta data hndm hsubm
  have hall21 : ∀ s, lookupA d2 s = (lookupA data s).map
      (fun props => updAll props (prefKeys ((lookupA meta s).getD []))) := by
    intro s
    by_cases hs : s ∈ keysOf meta
    · exact hin2 s hs
    · rw [hout2 s hs]
      have hnone : lookupA data s = none := by
        rw [lookupA_eq_none_iff, hkeys]
        exact hs
      rw [hnone]
      rfl
  refine ⟨?_, ?_, ?_, ?_, ?_⟩
  · intro vers r h
    simp only [containize] at h
    by_cases hv : vers = "1.0" ∨ vers = "2.0" ∨ vers = "2.1" ∨ vers = "2.2"
    · rw [if_pos hv] at h
      cases hE : (if vers = "1.0" ∨ vers = "2.0" then mergeMeta10 data meta
             else if vers = "2.1" then mergeMeta21 data meta else .ok data) with
      | error e =>
        rw [hE] at h
        exact absurd h (by simp)
      | ok data1 =>
        rw [hE] at h
        have hh : (if vers = "1.0" then
              Except.ok ([MsgPart.ser (srcMapValue data1)], data1, meta)
            else
              match buildMsg ser vers meta data1 with
              | Except.error e => Except.error e
              | Except.ok msg => Except.ok (msg, stripArrays data1, meta))
            = Except.ok r := h
        by_cases h10 : vers = "1.0"
        · rw [if_pos h10] at hh
          have h' := Except.ok.inj hh
          rw [← h']
        · rw [if_neg h10] at hh
          cases hB : buildMsg ser vers meta data1 with
          | error e =>
            rw [hB] at hh
            exact absurd hh (by simp)
          | ok msg =>
            rw [hB] at hh
            have h' := Except.ok.inj hh
            rw [← h']
    · rw [if_neg hv] at h
      exact absurd h (by simp)
  · refine ⟨([.ser (srcMapValue d1)], d1, meta), ?_, ?_⟩
    · simp [containize, hd1]
    · exact hall10
  · have hb20 := buildMsg_ok ser "2.0" meta d1 (by
      intro s hs
      rw [← hkeys, ← hkd]
      exact hs)
    refine ⟨(d1.flatMap (fun p =>
        srcSegment ser "2.0" p.1 p.2 ((lookupA meta p.1).getD [])),
      stripArrays d1, meta), ?_, ?_⟩
    · simp [containize, hd1, hb20]
    · intro s
      rw [show ((d1.flatMap (fun p =>
            srcSegment ser "2.0" p.1 p.2 ((lookupA meta p.1).getD [])),
          stripArrays d1, meta) :
            List MsgPart × SrcMap × SrcMap).2.1 = stripArrays d1 from rfl]
      rw [stripArrays, lookupA_map_entry, hall10 s]
      cases lookupA data s <;> rfl
  · have hb21 := buildMsg_ok ser "2.1" meta d2 (by
      intro s hs
      rw [← hkeys, ← hkd2]
      exact hs)
    refine ⟨(d2.flatMap (fun p =>
        srcSegment ser "2.1" p.1 p.2 ((lookupA meta p.1).getD [])),
      stripArrays d2, meta), ?_, ?_⟩
    · simp [containize, hd2, hb21]
    · intro s
      rw [show ((d2.flatMap (fun p =>
            srcSegment ser "2.1" p.1 p.2 ((lookupA meta p.1).getD [])),
          stripArrays d2, meta) :
            List MsgPart × SrcMap × SrcMap).2.1 = stripArrays d2 from rfl]
      rw [stripArrays, lookupA_map_entry, hall21 s]
      cases lookupA data s <;> rfl
  · have hb22 := buildMsg_ok ser "2.2" meta data (by
      intro s hs
      rw [← hkeys]
      exact hs)
    exact ⟨(data.flatMap (fun p =>
        srcSegment ser "2.2" p.1 p.2 ((lookupA meta p.1).getD [])),
      stripArrays data, meta), by simp [containize, hb22], rfl⟩

/-- C7 witness: the per-version Data/Metadata mutation characterization
applied to the tiny two-field train. -/
theorem C7_encode_mutation_witness :
    (∀ vers r, containize (cd0, cm0) "msgpack" vers = .ok r → r.2.2 = cm0) ∧
    (∃ r, containize (cd0, cm0) "msgpack" "1.0" = .ok r ∧
      ∀ s, lookupA r.2.1 s = (lookupA cd0 s).map
        (fun props => updateA props "metadata" (.dict ((lookupA cm0 s).getD [])))) ∧
    (∃ r, containize (cd0, cm0) "msgpack" "2.0" = .ok r ∧
      ∀ s, lookupA r.2.1 s = (lookupA cd0 s).map (fun props =>
        (updateA props "metadata" (.dict ((lookupA cm0 s).getD []))).filter
          (fun q => !(isArrV q.2)))) ∧
    (∃ r, containize (cd0, cm0) "msgpack" "2.1" = .ok r ∧
      ∀ s, lookupA r.2.1 s = (lookupA cd0 s).map (fun props =>
        (updAll props (prefKeys ((lookupA cm0 s).getD []))).filter
          (fun q => !(isArrV q.2)))) ∧
    (∃ r, containize (cd0, cm0) "msgpack" "2.2" = .ok r ∧ r.2.1 = stripArrays cd0) :=
  C7_encode_mutation cd0 cm0 "msgpack" rfl (by decide)
